import Mathlib

set_option maxRecDepth 4000

/-!
Verification of the response-parsing core of the DfX analysis tool
(`src/brainstorming.py`).

The program under study queries a hosted multimodal model and converts its
free-form text replies into fixed-shape records.  The parts embedded here are:

* `clean_json_response` — the heuristic sanitizer (find first `{` / last `}`,
  slice inclusively, delete literal `json` tokens, strip whitespace);
* the generic JSON parser used by the program (Python's `json.loads`,
  modelled by an executable recursive-descent parser over `List Char`);
* the projections of parsed JSON into the three record shapes
  (`ObjectDescription`, `DesignBrainstorming`, `DfXSpecification`);
* the three analysis operations' reply-handling (`generate_object_description`,
  `generate_brainstorming`, `analyze_specifications`), with the external
  endpoint call modelled as an `Except` input (an exception raised by the
  endpoint call is an `.error`, a reply text is an `.ok`).

Strings are modelled as `List Char`.  Exceptions caught by the program's
`try/except` blocks are modelled by `Option`/`Except` plumbing.
-/

/-! ## Characters and Python string primitives -/

/-- Whitespace in the sense of Python's `str.strip` (ASCII part: space, tab,
newline, carriage return, vertical tab, form feed). -/
def isWsChar (c : Char) : Bool :=
  c = ' ' || c = '\t' || c = '\n' || c = '\r' || c.toNat = 11 || c.toNat = 12

/-- Drop leading whitespace. -/
def skipWs (cs : List Char) : List Char :=
  cs.dropWhile isWsChar

/-- Python's `str.strip()`: drop whitespace from both ends. -/
def pyStrip (cs : List Char) : List Char :=
  ((cs.dropWhile isWsChar).reverse.dropWhile isWsChar).reverse

/-- Python's `str.rfind` restated over an index-returning finder: index of the
last element satisfying `p`, or `none`.  (`rfind` returns -1 exactly when this
returns `none`.) -/
def rfindIdx (p : Char → Bool) (cs : List Char) : Option Nat :=
  match cs.reverse.findIdx? p with
  | some i => some (cs.length - 1 - i)
  | none => none

/-- Python's `json_str.replace('json', '')`: delete every occurrence of the
four-character token `json`, scanning left to right (non-overlapping, exactly
as `str.replace`). -/
def removeJson : List Char → List Char
  | 'j' :: 's' :: 'o' :: 'n' :: rest => removeJson rest
  | c :: rest => c :: removeJson rest
  | [] => []

/-- Does the text contain the four-character token `json` as a contiguous
substring?  (Same scanning structure as `removeJson`.) -/
def containsJson : List Char → Bool
  | 'j' :: 's' :: 'o' :: 'n' :: _ => true
  | _ :: rest => containsJson rest
  | [] => false

/-! ## The sanitizer (`clean_json_response`, source lines 38-48) -/

/-- The error message raised by the sanitizer. -/
def noJsonMsg : List Char :=
  ("No valid JSON object found in response").data

/-- Model of `clean_json_response` (source lines 38-48):

    start = text.find('{'); end = text.rfind('}')
    if start == -1 or end == -1: raise ValueError(...)
    json_str = text[start:end + 1]
    json_str = json_str.replace('json', '').replace('', '')
    return json_str.strip()

`find`/`rfind` returning -1 is modelled by the `Option` finders returning
`none`; the Python slice `text[start:end+1]` is `(text.take (e+1)).drop s`;
the second `.replace('', '')` is the identity and is omitted.  A raised
`ValueError` is the `.error` branch. -/
def clean_json_response (text : List Char) : Except (List Char) (List Char) :=
  match text.findIdx? (fun c => c = '{'), rfindIdx (fun c => c = '}') text with
  | some s, some e => .ok (pyStrip (removeJson ((text.take (e + 1)).drop s)))
  | _, _ => .error noJsonMsg

/-! ## Generic JSON values (the result of Python's `json.loads`) -/

/-- A parsed JSON value.  Python's `json.loads` produces `dict`/`list`/`str`/
numbers/booleans/`None`; objects are modelled as insertion-ordered key-value
lists with unique keys (Python dicts).  Numbers are modelled as integers
(floating point is irrelevant to every claim considered). -/
inductive Json where
  | null : Json
  | bool (b : Bool) : Json
  | num (n : Int) : Json
  | str (s : List Char) : Json
  | arr (elems : List Json) : Json
  | obj (members : List (List Char × Json)) : Json

/-- Python dict assignment `d[k] = v` on an insertion-ordered key-value list:
overwrite in place if the key exists, else append.  `json.loads` builds
objects this way, so parsed objects have unique keys. -/
def insertKV : List (List Char × Json) → List Char → Json → List (List Char × Json)
  | [], k, v => [(k, v)]
  | (k', v') :: rest, k, v =>
    if k' = k then (k', v) :: rest else (k', v') :: insertKV rest k v

/-- Lookup in an insertion-ordered key-value list (Python `d[k]`, as `Option`:
`none` models a raised `KeyError`). -/
def lookupKey : List (List Char × Json) → List Char → Option Json
  | [], _ => none
  | (k, v) :: rest, key => if k = key then some v else lookupKey rest key

/-- Python subscript `value[key]` on an arbitrary parsed value: a `KeyError`
on a dict without the key, and a `TypeError` on any non-dict value, are both
exceptions, modelled as `none`. -/
def getKey : Json → List Char → Option Json
  | .obj ms, key => lookupKey ms key
  | _, _ => none

/-! ## The JSON parser (model of Python's `json.loads`)

An executable recursive-descent parser over `List Char`.  The three mutually
recursive phases (value / array items / object members) are fused into one
function that is structurally recursive on a fuel argument, so that it
kernel-reduces on concrete inputs.  `json_loads` supplies fuel
`2 * length + 2`, which exceeds the two fuel units any parsing step can spend
per input character.  The parser accepts exactly one JSON value plus optional
trailing whitespace, as `json.loads` does; it is slightly stricter than
Python on numeric notation (integers only) and on `\uXXXX` escapes, neither
of which any claim exercises. -/

/-- Decode the character following a backslash in a JSON string literal. -/
def unescapeChar (c : Char) : Option Char :=
  if c = '"' then some '"'
  else if c = '\\' then some '\\'
  else if c = '/' then some '/'
  else if c = 'n' then some '\n'
  else if c = 't' then some '\t'
  else if c = 'r' then some '\r'
  else if c = 'b' then some (Char.ofNat 8)
  else if c = 'f' then some (Char.ofNat 12)
  else none

/-- Parse the body of a JSON string literal (the opening quote already
consumed): returns the decoded characters and the input after the closing
quote.  Control characters are rejected, as in Python. -/
def parseJString : List Char → Option (List Char × List Char)
  | [] => none
  | c :: rest =>
    if c = '"' then some ([], rest)
    else if c = '\\' then
      match rest with
      | [] => none
      | e :: rest2 =>
        match unescapeChar e, parseJString rest2 with
        | some u, some p => some (u :: p.1, p.2)
        | _, _ => none
    else if c.toNat < 32 then none
    else
      match parseJString rest with
      | some p => some (c :: p.1, p.2)
      | none => none

/-- Parse a run of decimal digits, accumulating into `acc`. -/
def parseDigits : List Char → Nat → (Nat × List Char)
  | [], acc => (acc, [])
  | c :: rest, acc =>
    if c.isDigit then parseDigits rest (acc * 10 + (c.toNat - 48))
    else (acc, c :: rest)

/-- Parse a nonempty run of decimal digits. -/
def parseNatLit (cs : List Char) : Option (Nat × List Char) :=
  match cs with
  | [] => none
  | c :: _ => if c.isDigit then some (parseDigits cs 0) else none

/-- The phase of the fused parser: a single value, the items of an array
(with the items parsed so far), or the members of an object (with the
members parsed so far). -/
inductive PMode where
  | val : PMode
  | items (acc : List Json) : PMode
  | members (acc : List (List Char × Json)) : PMode

/-- The fused recursive-descent parser, structurally recursive on fuel.
Returns the parsed value and the remaining input. -/
def parseF : Nat → PMode → List Char → Option (Json × List Char)
  | 0, _, _ => none
  | n + 1, .val, cs =>
    match skipWs cs with
    | [] => none
    | c :: rest =>
      if c = '{' then
        match skipWs rest with
        | [] => none
        | d :: r2 => if d = '}' then some (.obj [], r2) else parseF n (.members []) rest
      else if c = '[' then
        match skipWs rest with
        | [] => none
        | d :: r2 => if d = ']' then some (.arr [], r2) else parseF n (.items []) rest
      else if c = '"' then
        match parseJString rest with
        | some p => some (.str p.1, p.2)
        | none => none
      else if c = 't' then
        match rest with
        | 'r' :: 'u' :: 'e' :: r => some (.bool true, r)
        | _ => none
      else if c = 'f' then
        match rest with
        | 'a' :: 'l' :: 's' :: 'e' :: r => some (.bool false, r)
        | _ => none
      else if c = 'n' then
        match rest with
        | 'u' :: 'l' :: 'l' :: r => some (.null, r)
        | _ => none
      else if c = '-' then
        match parseNatLit rest with
        | some p => some (.num (-(p.1 : Int)), p.2)
        | none => none
      else if c.isDigit then
        match parseNatLit (c :: rest) with
        | some p => some (.num (p.1 : Int), p.2)
        | none => none
      else none
  | n + 1, .items acc, cs =>
    match parseF n .val cs with
    | none => none
    | some (v, rest) =>
      match skipWs rest with
      | [] => none
      | c :: r2 =>
        if c = ',' then parseF n (.items (acc ++ [v])) r2
        else if c = ']' then some (.arr (acc ++ [v]), r2)
        else none
  | n + 1, .members acc, cs =>
    match skipWs cs with
    | [] => none
    | c :: r1 =>
      if c = '"' then
        match parseJString r1 with
        | none => none
        | some (k, r2) =>
          match skipWs r2 with
          | [] => none
          | d :: r3 =>
            if d = ':' then
              match parseF n .val r3 with
              | none => none
              | some (v, r4) =>
                match skipWs r4 with
                | [] => none
                | e :: r5 =>
                  if e = ',' then parseF n (.members (insertKV acc k v)) r5
                  else if e = '}' then some (.obj (insertKV acc k v), r5)
                  else none
            else none
      else none

/-- Model of `json.loads`: parse exactly one JSON value, allowing trailing
whitespace only; any parse failure (a raised `JSONDecodeError`) is `none`. -/
def json_loads (cs : List Char) : Option Json :=
  match parseF (2 * cs.length + 2) .val cs with
  | some (j, rest) => if skipWs rest = [] then some j else none
  | none => none

/-! ## Record schemas and projections

The Python dataclasses carry no runtime type information: each field stores
whatever parsed JSON value the key lookup produced, with no coercion or
validation.  Fields are therefore of type `Json` here (except the
`category` of a specification, which the code sets from the dict key, a
string). -/

/-- `ObjectDescription` (source lines 11-18). -/
structure ObjectDescription where
  general_description : Json
  components : Json
  dimensions : Json
  materials : Json
  key_features : Json
  intended_use : Json

/-- `DesignBrainstorming` (source lines 20-28). -/
structure DesignBrainstorming where
  components_alternatives : Json
  material_options : Json
  ergonomic_considerations : Json
  market_analysis : Json
  hazard_analysis : Json
  innovation_opportunities : Json
  design_tradeoffs : Json

/-- `DfXSpecification` (source lines 30-36). -/
structure DfXSpecification where
  category : List Char
  specifications : Json
  requirements : Json
  constraints : Json
  recommendations : Json

def gdKey : List Char := ("general_description").data

def componentsKey : List Char := ("components").data

def dimensionsKey : List Char := ("dimensions").data

def materialsKey : List Char := ("materials").data

def keyFeaturesKey : List Char := ("key_features").data

def intendedUseKey : List Char := ("intended_use").data

def caKey : List Char := ("components_alternatives").data

def moKey : List Char := ("material_options").data

def ecKey : List Char := ("ergonomic_considerations").data

def maKey : List Char := ("market_analysis").data

def haKey : List Char := ("hazard_analysis").data

def ioKey : List Char := ("innovation_opportunities").data

def dtKey : List Char := ("design_tradeoffs").data

def specificationsKey : List Char := ("specifications").data

def requirementsKey : List Char := ("requirements").data

def constraintsKey : List Char := ("constraints").data

def recommendationsKey : List Char := ("recommendations").data

/-- Field projection of `generate_object_description` (source lines 134-141):
six direct key lookups; any missing key raises and the whole construction is
abandoned (`none`). -/
def projectObjectDescription (j : Json) : Option ObjectDescription :=
  match getKey j gdKey, getKey j componentsKey, getKey j dimensionsKey,
        getKey j materialsKey, getKey j keyFeaturesKey, getKey j intendedUseKey with
  | some a, some b, some c, some d, some e, some f => some ⟨a, b, c, d, e, f⟩
  | _, _, _, _, _, _ => none

/-- Field projection of `generate_brainstorming` (source lines 250-258). -/
def projectDesignBrainstorming (j : Json) : Option DesignBrainstorming :=
  match getKey j caKey, getKey j moKey, getKey j ecKey, getKey j maKey,
        getKey j haKey, getKey j ioKey, getKey j dtKey with
  | some a, some b, some c, some d, some e, some f, some g => some ⟨a, b, c, d, e, f, g⟩
  | _, _, _, _, _, _, _ => none

/-- Construction of one `DfXSpecification` inside the loop of
`analyze_specifications` (source lines 330-336): four direct key lookups on
the category's sub-object; the category field is set to the dict key. -/
def projectSpec (category : List Char) (data : Json) : Option DfXSpecification :=
  match getKey data specificationsKey, getKey data requirementsKey,
        getKey data constraintsKey, getKey data recommendationsKey with
  | some s, some r, some c, some rc => some ⟨category, s, r, c, rc⟩
  | _, _, _, _ => none

/-! ## The three analysis operations (reply handling)

Each operation's endpoint exchange is modelled as an
`Except (List Char) (List Char)` input: `.error e` is an exception raised by
the `client.chat.completions.create` call (network error, rate limit, ...),
`.ok reply` is the reply text.  In the source the `create` call stands
OUTSIDE the `try` block, so an endpoint exception propagates out of the
operation; everything from reading the reply text onwards is inside the
`try`, and any exception there is reported via `st.error` and turned into
`None` (here `none`). -/

/-- Reply handling of `generate_object_description` (source lines 129-145):
sanitize, parse, project; any failure yields `None`. -/
def generate_object_description_of_reply (reply : List Char) : Option ObjectDescription :=
  match clean_json_response reply with
  | .error _ => none
  | .ok s =>
    match json_loads s with
    | none => none
    | some j => projectObjectDescription j

/-- `DfXAnalyzer.generate_object_description` (source lines 71-145), with the
endpoint exchange abstracted.  An `.error` result models an exception
escaping the method uncaught. -/
def generate_object_description (endpoint : Except (List Char) (List Char)) :
    Except (List Char) (Option ObjectDescription) :=
  match endpoint with
  | .error e => .error e
  | .ok reply => .ok (generate_object_description_of_reply reply)

/-- Reply handling of `generate_brainstorming` (source lines 245-262). -/
def generate_brainstorming_of_reply (reply : List Char) : Option DesignBrainstorming :=
  match clean_json_response reply with
  | .error _ => none
  | .ok s =>
    match json_loads s with
    | none => none
    | some j => projectDesignBrainstorming j

/-- `DfXAnalyzer.generate_brainstorming` (source lines 147-262), with the
endpoint exchange abstracted. -/
def generate_brainstorming (endpoint : Except (List Char) (List Char)) :
    Except (List Char) (Option DesignBrainstorming) :=
  match endpoint with
  | .error e => .error e
  | .ok reply => .ok (generate_brainstorming_of_reply reply)

/-- The `for category, data in results.items()` loop of
`analyze_specifications` (source lines 329-337).  The loop body appends to
`analysis_results`; the surrounding `try` is OUTSIDE the loop, so the first
exception (missing key / non-dict sub-object) aborts the loop and the
function returns what was accumulated so far. -/
def specLoop : List (List Char × Json) → List (List Char × DfXSpecification) →
    List (List Char × DfXSpecification)
  | [], acc => acc
  | (k, v) :: rest, acc =>
    match projectSpec k v with
    | none => acc
    | some sp => specLoop rest (acc ++ [(k, sp)])

/-- Reply handling of `analyze_specifications` (source lines 323-345):
sanitize, parse, then loop over the top-level members.  Any failure before
the loop (sanitizer error, parse error, non-dict result) leaves
`analysis_results` empty. -/
def analyze_specifications_of_reply (reply : List Char) :
    List (List Char × DfXSpecification) :=
  match clean_json_response reply with
  | .error _ => []
  | .ok s =>
    match json_loads s with
    | none => []
    | some (.obj kvs) => specLoop kvs []
    | some _ => []

/-- `DfXAnalyzer.analyze_specifications` (source lines 264-345), with the
endpoint exchange abstracted.  `criteria` is the requested category list; in
the source it is used only to build the prompt text, never to validate or
filter the reply. -/
def analyze_specifications (criteria : List (List Char))
    (endpoint : Except (List Char) (List Char)) :
    Except (List Char) (List (List Char × DfXSpecification)) :=
  match criteria, endpoint with
  | _, .error e => .error e
  | _, .ok reply => .ok (analyze_specifications_of_reply reply)

/-- The ten fixed DfX categories (`DfXAnalyzer.categories`, source lines
53-64; duplicated as `dfx_options` at lines 361-372). -/
def categories : List (List Char × List Char) :=
  [ (("manufacturability").data, ("Manufacturing process and production specifications").data),
    (("reliability").data, ("Product reliability and durability specifications").data),
    (("sustainability").data, ("Environmental and resource efficiency specifications").data),
    (("usability").data, ("User interaction and accessibility specifications").data),
    (("cost").data, ("Cost-related specifications and requirements").data),
    (("safety").data, ("Safety standards and requirements").data),
    (("performance").data, ("Performance specifications and benchmarks").data),
    (("maintainability").data, ("Maintenance and serviceability specifications").data),
    (("scalability").data, ("Growth and adaptation specifications").data),
    (("compliance").data, ("Regulatory and standards compliance specifications").data) ]

def escapeChar (c : Char) : List Char :=
  if c = '"' then ['\\', '"'] else if c = '\\' then ['\\', '\\'] else [c]

def escapeStr : List Char → List Char
  | [] => []
  | c :: rest => escapeChar c ++ escapeStr rest

def renderStr (s : List Char) : List Char :=
  '"' :: (escapeStr s ++ ['"'])

def PlainStr (s : List Char) : Prop := ∀ c ∈ s, 32 ≤ c.toNat

def renderMoreItems : List (List Char) → List Char
  | [] => []
  | s :: rest => ',' :: (renderStr s ++ renderMoreItems rest)

def renderStrArr : List (List Char) → List Char
  | [] => ['[', ']']
  | s :: rest => '[' :: (renderStr s ++ (renderMoreItems rest ++ [']']))

def renderMoreMembers : List (List Char × List Char) → List Char
  | [] => []
  | (k, v) :: rest => ',' :: (renderStr k ++ (':' :: (renderStr v ++ renderMoreMembers rest)))

def renderStrObj : List (List Char × List Char) → List Char
  | [] => ['{', '}']
  | (k, v) :: rest =>
    '{' :: (renderStr k ++ (':' :: (renderStr v ++ (renderMoreMembers rest ++ ['}']))))

/-- Declarative characterization of the first index of a character. -/
def FirstIdxOf (cs : List Char) (c : Char) (i : Nat) : Prop :=
  cs[i]? = some c ∧ ∀ k, k < i → cs[k]? ≠ some c

/-- Declarative characterization of the last index of a character. -/
def LastIdxOf (cs : List Char) (c : Char) (j : Nat) : Prop :=
  cs[j]? = some c ∧ ∀ k, j < k → cs[k]? ≠ some c

/-- The canonical serialization of the instructed object-description reply
shape: an object with the six instructed keys, whose values are a string, a
string array, a string-valued object and three further string arrays, in
instructed order, with no whitespace. -/
def renderODReply (gd : List Char) (comps : List (List Char))
    (dims : List (List Char × List Char)) (mats kf iu : List (List Char)) : List Char :=
  '{' :: (renderStr gdKey ++ (':' :: (renderStr gd ++ (',' :: (renderStr componentsKey ++ (':' :: (renderStrArr comps ++ (',' :: (renderStr dimensionsKey ++ (':' :: (renderStrObj dims ++ (',' :: (renderStr materialsKey ++ (':' :: (renderStrArr mats ++ (',' :: (renderStr keyFeaturesKey ++ (':' :: (renderStrArr kf ++ (',' :: (renderStr intendedUseKey ++ (':' :: (renderStrArr iu ++ ['}'])))))))))))))))))))))))

/-- The parsed form of `renderODReply`. -/
def odJson (gd : List Char) (comps : List (List Char))
    (dims : List (List Char × List Char)) (mats kf iu : List (List Char)) : Json :=
  .obj [(gdKey, Json.str gd),
       (componentsKey, Json.arr (comps.map .str)),
       (dimensionsKey, Json.obj (dims.map (fun p => (p.1, Json.str p.2)))),
       (materialsKey, Json.arr (mats.map .str)),
       (keyFeaturesKey, Json.arr (kf.map .str)),
       (intendedUseKey, Json.arr (iu.map .str))]

instance (s : List Char) : Decidable (PlainStr s) := by
  unfold PlainStr
  infer_instance

/-- Description (from the specification's wording, for the amended C3): the
mapping consisting of the successful projections of the categories strictly
before the first projection failure, in reply order. -/
def truncatedProjections : List (List Char × Json) → List (List Char × DfXSpecification)
  | [] => []
  | (k, v) :: rest =>
    match projectSpec k v with
    | none => []
    | some sp => (k, sp) :: truncatedProjections rest

def safetyKey : List Char := ("safety").data

def costKey : List Char := ("cost").data

lemma skipWs_cons {c : Char} (cs : List Char) (h : isWsChar c = false) :
    skipWs (c :: cs) = c :: cs := by
  simp [skipWs, List.dropWhile_cons, h]

lemma parseJString_escape (s rest : List Char) (h : PlainStr s) :
    parseJString (escapeStr s ++ '"' :: rest) = some (s, rest) := by
  induction s with
  | nil =>
    rw [escapeStr, List.nil_append, parseJString.eq_def]
    simp
  | cons c cs ih =>
    have hcs : PlainStr cs := fun d hd => h d (List.mem_cons_of_mem _ hd)
    have hc : 32 ≤ c.toNat := h c (List.mem_cons_self c cs)
    by_cases hq : c = '"'
    · subst hq
      rw [escapeStr, escapeChar]
      simp only [if_pos rfl, List.cons_append, List.append_assoc]
      rw [parseJString.eq_def]
      simp [unescapeChar, ih hcs]
    · by_cases hb : c = '\\'
      · subst hb
        rw [escapeStr, escapeChar]
        simp only [if_neg (by decide : ¬ ('\\' : Char) = '"'), if_pos rfl,
          List.cons_append, List.append_assoc]
        rw [parseJString.eq_def]
        simp [unescapeChar, ih hcs]
      · have hlt : ¬ c.toNat < 32 := by omega
        rw [escapeStr, escapeChar]
        simp only [if_neg hq, if_neg hb, List.cons_append, List.nil_append]
        rw [parseJString.eq_def]
        simp [hq, hb, hlt, ih hcs]

lemma parseF_str (s rest : List Char) (n : Nat) (h : PlainStr s) :
    parseF (n + 1) .val (renderStr s ++ rest) = some (.str s, rest) := by
  have hr : renderStr s ++ rest = '"' :: (escapeStr s ++ '"' :: rest) := by
    simp [renderStr]
  rw [hr, parseF.eq_def]
  have hsk : skipWs ('"' :: (escapeStr s ++ '"' :: rest)) = '"' :: (escapeStr s ++ '"' :: rest) :=
    skipWs_cons _ (by decide)
  simp [hsk, parseJString_escape s rest h]

lemma renderStr_append (s X : List Char) :
    renderStr s ++ X = '"' :: (escapeStr s ++ '"' :: X) := by
  simp [renderStr]

lemma parseF_items (xs : List (List Char)) :
    ∀ (x : List Char) (acc : List Json) (n : Nat) (rest : List Char),
      PlainStr x → (∀ s ∈ xs, PlainStr s) →
      parseF (xs.length + n + 2) (.items acc)
          (renderStr x ++ (renderMoreItems xs ++ (']' :: rest))) =
        some (.arr (acc ++ (x :: xs).map .str), rest) := by
  induction xs with
  | nil =>
    intro x acc n rest hx _
    rw [parseF.eq_def]
    have hv : parseF (n + 1) .val (renderStr x ++ (renderMoreItems [] ++ (']' :: rest))) =
        some (.str x, ']' :: rest) := by
      rw [renderMoreItems, List.nil_append]
      exact parseF_str x (']' :: rest) n hx
    simp only [List.length_nil, Nat.zero_add, hv]
    have hsk : skipWs (']' :: rest) = ']' :: rest := skipWs_cons _ (by decide)
    simp [hsk]
  | cons y ys ih =>
    intro x acc n rest hx hall
    have hy : PlainStr y := hall y (List.mem_cons_self y ys)
    have hys : ∀ s ∈ ys, PlainStr s := fun s hs => hall s (List.mem_cons_of_mem _ hs)
    rw [parseF.eq_def]
    have hv : parseF (ys.length + n + 2) .val
        (renderStr x ++ (renderMoreItems (y :: ys) ++ (']' :: rest))) =
        some (.str x, renderMoreItems (y :: ys) ++ (']' :: rest)) := by
      have := parseF_str x (renderMoreItems (y :: ys) ++ (']' :: rest)) (ys.length + n + 1) hx
      simpa using this
    have hlen : (y :: ys).length + n + 2 = (ys.length + n + 2) + 1 := by
      simp [List.length_cons]; omega
    rw [hlen]
    simp only [hv]
    have hsk : skipWs (',' :: (renderStr y ++ (renderMoreItems ys ++ (']' :: rest)))) =
        ',' :: (renderStr y ++ (renderMoreItems ys ++ (']' :: rest))) := skipWs_cons _ (by decide)
    rw [renderMoreItems]
    simp only [List.append_assoc, List.cons_append] at hsk ⊢
    simp only [hsk]
    have := ih y (acc ++ [Json.str x]) n rest hy hys
    simp only [List.append_assoc, List.cons_append] at this
    simp [this]

lemma parseF_strArr (ss : List (List Char)) (n : Nat) (rest : List Char)
    (h : ∀ s ∈ ss, PlainStr s) :
    parseF ((ss.length + 2) + n) .val (renderStrArr ss ++ rest) =
      some (.arr (ss.map .str), rest) := by
  cases ss with
  | nil =>
    have hlen : (([] : List (List Char)).length + 2) + n = (n + 1) + 1 := by simp; omega
    rw [hlen, renderStrArr, parseF.eq_def]
    have h1 : skipWs ('[' :: (']' :: rest)) = '[' :: (']' :: rest) := skipWs_cons _ (by decide)
    have h2 : skipWs (']' :: rest) = ']' :: rest := skipWs_cons _ (by decide)
    simp only [List.cons_append, List.nil_append] at h1 h2 ⊢
    simp [h1, h2]
  | cons x xs =>
    have hx : PlainStr x := h x (List.mem_cons_self x xs)
    have hxs : ∀ s ∈ xs, PlainStr s := fun s hs => h s (List.mem_cons_of_mem _ hs)
    have hlen : ((x :: xs).length + 2) + n = (xs.length + n + 2) + 1 := by
      simp [List.length_cons]; omega
    rw [hlen, renderStrArr, parseF.eq_def]
    have h1 : skipWs ('[' :: (renderStr x ++ (renderMoreItems xs ++ (']' :: rest)))) =
        '[' :: (renderStr x ++ (renderMoreItems xs ++ (']' :: rest))) := skipWs_cons _ (by decide)
    have h2 : skipWs (renderStr x ++ (renderMoreItems xs ++ (']' :: rest))) =
        renderStr x ++ (renderMoreItems xs ++ (']' :: rest)) := by
      rw [renderStr_append]
      exact skipWs_cons _ (by decide)
    have hit := parseF_items xs x [] n rest hx hxs
    simp only [List.cons_append, List.append_assoc, List.nil_append] at h1 h2 hit ⊢
    rw [h1]
    simp only [h2]
    rw [renderStr_append] at hit
    simp only [List.map_cons] at hit
    rw [renderStr_append]
    simp [hit]

lemma insertKV_fresh (acc : List (List Char × Json)) (k : List Char) (v : Json)
    (h : ∀ q ∈ acc, q.1 ≠ k) : insertKV acc k v = acc ++ [(k, v)] := by
  induction acc with
  | nil => rfl
  | cons q rest ih =>
    obtain ⟨k', v'⟩ := q
    have hk' : k' ≠ k := h (k', v') (List.mem_cons_self _ _)
    rw [insertKV, if_neg hk', List.cons_append,
      ih (fun q hq => h q (List.mem_cons_of_mem _ hq))]

lemma parseF_strMembers (kvs : List (List Char × List Char)) :
    ∀ (k v : List Char) (acc : List (List Char × Json)) (n : Nat) (rest : List Char),
      PlainStr k → PlainStr v →
      (∀ p ∈ kvs, PlainStr p.1 ∧ PlainStr p.2) →
      (∀ key ∈ k :: kvs.map Prod.fst, ∀ q ∈ acc, q.1 ≠ key) →
      (k :: kvs.map Prod.fst).Nodup →
      parseF (kvs.length + n + 2) (.members acc)
          (renderStr k ++ (':' :: (renderStr v ++ (renderMoreMembers kvs ++ ('}' :: rest))))) =
        some (.obj (acc ++ ((k, v) :: kvs).map (fun p => (p.1, Json.str p.2))), rest) := by
  induction kvs with
  | nil =>
    intro k v acc n rest hk hv _ hfresh _
    rw [parseF.eq_def]
    simp only [List.length_nil, Nat.zero_add, renderMoreMembers, List.nil_append]
    rw [renderStr_append]
    have hsk1 : skipWs ('"' :: (escapeStr k ++ '"' :: (':' :: (renderStr v ++ '}' :: rest)))) =
        '"' :: (escapeStr k ++ '"' :: (':' :: (renderStr v ++ '}' :: rest))) :=
      skipWs_cons _ (by decide)
    simp only [hsk1]
    rw [parseJString_escape k (':' :: (renderStr v ++ '}' :: rest)) hk]
    have hsk2 : skipWs (':' :: (renderStr v ++ '}' :: rest)) =
        ':' :: (renderStr v ++ '}' :: rest) := skipWs_cons _ (by decide)
    simp only [hsk2]
    have hval : parseF (n + 1) .val (renderStr v ++ ('}' :: rest)) =
        some (.str v, '}' :: rest) := parseF_str v ('}' :: rest) n hv
    simp only [List.cons_append, List.append_assoc] at hval ⊢
    simp only [hval]
    have hsk3 : skipWs ('}' :: rest) = '}' :: rest := skipWs_cons _ (by decide)
    have hins : insertKV acc k (Json.str v) = acc ++ [(k, Json.str v)] :=
      insertKV_fresh acc k _ (fun q hq => hfresh k (List.mem_cons_self _ _) q hq)
    simp [hsk3, hins]
  | cons p ps ih =>
    intro k v acc n rest hk hv hall hfresh hnod
    obtain ⟨k2, v2⟩ := p
    have hk2 : PlainStr k2 := (hall (k2, v2) (List.mem_cons_self _ _)).1
    have hv2 : PlainStr v2 := (hall (k2, v2) (List.mem_cons_self _ _)).2
    have hps : ∀ q ∈ ps, PlainStr q.1 ∧ PlainStr q.2 :=
      fun q hq => hall q (List.mem_cons_of_mem _ hq)
    have hlen : ((k2, v2) :: ps).length + n + 2 = (ps.length + n + 2) + 1 := by
      simp [List.length_cons]; omega
    rw [hlen, parseF.eq_def]
    rw [renderStr_append]
    have hsk1 : skipWs ('"' :: (escapeStr k ++ '"' ::
        (':' :: (renderStr v ++ (renderMoreMembers ((k2, v2) :: ps) ++ '}' :: rest))))) =
        '"' :: (escapeStr k ++ '"' ::
        (':' :: (renderStr v ++ (renderMoreMembers ((k2, v2) :: ps) ++ '}' :: rest)))) :=
      skipWs_cons _ (by decide)
    simp only [List.cons_append, List.append_assoc] at hsk1 ⊢
    simp only [hsk1]
    rw [parseJString_escape k _ hk]
    have hsk2 : skipWs (':' :: (renderStr v ++ (renderMoreMembers ((k2, v2) :: ps) ++ '}' :: rest))) =
        ':' :: (renderStr v ++ (renderMoreMembers ((k2, v2) :: ps) ++ '}' :: rest)) :=
      skipWs_cons _ (by decide)
    simp only [List.cons_append, List.append_assoc] at hsk2 ⊢
    simp only [hsk2]
    have hval : parseF (ps.length + n + 1 + 1) .val
        (renderStr v ++ (renderMoreMembers ((k2, v2) :: ps) ++ '}' :: rest)) =
        some (.str v, renderMoreMembers ((k2, v2) :: ps) ++ '}' :: rest) :=
      parseF_str v _ (ps.length + n + 1) hv
    have hfuel2 : ps.length + n + 2 = ps.length + n + 1 + 1 := by omega
    simp only [List.cons_append, List.append_assoc] at hval ⊢
    rw [hfuel2]
    simp only [hval]
    rw [renderMoreMembers]
    have hsk3 : skipWs (',' :: (renderStr k2 ++ (':' :: (renderStr v2 ++
        (renderMoreMembers ps ++ '}' :: rest))))) =
        ',' :: (renderStr k2 ++ (':' :: (renderStr v2 ++ (renderMoreMembers ps ++ '}' :: rest)))) :=
      skipWs_cons _ (by decide)
    simp only [List.cons_append, List.append_assoc] at hsk3 ⊢
    simp only [hsk3]
    have hins : insertKV acc k (Json.str v) = acc ++ [(k, Json.str v)] :=
      insertKV_fresh acc k _ (fun q hq => hfresh k (List.mem_cons_self _ _) q hq)
    have hfresh' : ∀ key ∈ k2 :: ps.map Prod.fst, ∀ q ∈ acc ++ [(k, Json.str v)], q.1 ≠ key := by
      intro key hkey q hq
      rcases List.mem_append.mp hq with hq1 | hq2
      · exact hfresh key (List.mem_cons_of_mem _ (by simpa using hkey)) q hq1
      · have : q = (k, Json.str v) := by simpa using hq2
        subst this
        have hkne : k ∉ ((k2, v2) :: ps).map Prod.fst := (List.nodup_cons.mp hnod).1
        intro hqk
        apply hkne
        have hkk : k = key := hqk
        rw [hkk]
        simpa using hkey
    have hnod' : (k2 :: ps.map Prod.fst).Nodup := by
      have := (List.nodup_cons.mp hnod).2
      simpa using this
    have := ih k2 v2 (acc ++ [(k, Json.str v)]) n rest hk2 hv2 hps hfresh' hnod'
    simp only [List.cons_append, List.append_assoc] at this
    rw [hins]
    simp only [this, List.map_cons]
    simp

lemma parseF_strObj (kvs : List (List Char × List Char)) (n : Nat) (rest : List Char)
    (h : ∀ p ∈ kvs, PlainStr p.1 ∧ PlainStr p.2)
    (hnod : (kvs.map Prod.fst).Nodup) :
    parseF ((kvs.length + 2) + n) .val (renderStrObj kvs ++ rest) =
      some (.obj (kvs.map (fun p => (p.1, Json.str p.2))), rest) := by
  cases kvs with
  | nil =>
    have hlen : (([] : List (List Char × List Char)).length + 2) + n = (n + 1) + 1 := by
      simp; omega
    rw [hlen, renderStrObj, parseF.eq_def]
    have h1 : skipWs ('{' :: ('}' :: rest)) = '{' :: ('}' :: rest) := skipWs_cons _ (by decide)
    have h2 : skipWs ('}' :: rest) = '}' :: rest := skipWs_cons _ (by decide)
    simp only [List.cons_append, List.nil_append] at h1 h2 ⊢
    simp [h1, h2]
  | cons p ps =>
    obtain ⟨k, v⟩ := p
    have hk : PlainStr k := (h (k, v) (List.mem_cons_self _ _)).1
    have hv : PlainStr v := (h (k, v) (List.mem_cons_self _ _)).2
    have hps : ∀ q ∈ ps, PlainStr q.1 ∧ PlainStr q.2 :=
      fun q hq => h q (List.mem_cons_of_mem _ hq)
    have hlen : (((k, v) :: ps).length + 2) + n = (ps.length + n + 2) + 1 := by
      simp [List.length_cons]; omega
    rw [hlen, renderStrObj, parseF.eq_def]
    have h1 : skipWs ('{' :: (renderStr k ++ (':' :: (renderStr v ++
        (renderMoreMembers ps ++ ['}']))) ++ rest)) =
        '{' :: (renderStr k ++ (':' :: (renderStr v ++ (renderMoreMembers ps ++ ['}']))) ++ rest) :=
      skipWs_cons _ (by decide)
    have h2 : skipWs (renderStr k ++ (':' :: (renderStr v ++
        (renderMoreMembers ps ++ ['}']))) ++ rest) =
        renderStr k ++ (':' :: (renderStr v ++ (renderMoreMembers ps ++ ['}']))) ++ rest := by
      rw [renderStr_append]
      exact skipWs_cons _ (by decide)
    have hnodkeys : (k :: ps.map Prod.fst).Nodup := by simpa using hnod
    have hmem := parseF_strMembers ps k v [] n rest hk hv hps (by intro key hkey q hq; simp at hq)
      hnodkeys
    simp only [List.cons_append, List.append_assoc, List.singleton_append,
      List.nil_append] at h1 h2 hmem ⊢
    rw [h1]
    simp only [h2]
    rw [renderStr_append] at hmem
    rw [renderStr_append]
    simp only [List.cons_append, List.append_assoc] at hmem ⊢
    simp [hmem]

lemma parseF_member_cons (k : List Char) (hk : PlainStr k) (rv : List Char) (v : Json) (b : Nat)
    (Hv : ∀ m r, parseF (b + m) .val (rv ++ r) = some (v, r))
    (n : Nat) (acc : List (List Char × Json)) (next : List Char) :
    parseF ((b + n) + 1) (.members acc) (renderStr k ++ (':' :: (rv ++ (',' :: next)))) =
      parseF (b + n) (.members (insertKV acc k v)) next := by
  rw [parseF.eq_def, renderStr_append]
  have h1 : skipWs ('"' :: (escapeStr k ++ '"' :: (':' :: (rv ++ (',' :: next))))) =
      '"' :: (escapeStr k ++ '"' :: (':' :: (rv ++ (',' :: next)))) := skipWs_cons _ (by decide)
  simp only [List.cons_append, List.append_assoc] at h1 ⊢
  simp only [h1]
  rw [parseJString_escape k _ hk]
  have h2 : skipWs (':' :: (rv ++ (',' :: next))) = ':' :: (rv ++ (',' :: next)) :=
    skipWs_cons _ (by decide)
  simp only [h2]
  have hval := Hv n (',' :: next)
  simp only [hval]
  have h3 : skipWs (',' :: next) = ',' :: next := skipWs_cons _ (by decide)
  simp [h3]

lemma parseF_member_last (k : List Char) (hk : PlainStr k) (rv : List Char) (v : Json) (b : Nat)
    (Hv : ∀ m r, parseF (b + m) .val (rv ++ r) = some (v, r))
    (n : Nat) (acc : List (List Char × Json)) (rest : List Char) :
    parseF ((b + n) + 1) (.members acc) (renderStr k ++ (':' :: (rv ++ ('}' :: rest)))) =
      some (.obj (insertKV acc k v), rest) := by
  rw [parseF.eq_def, renderStr_append]
  have h1 : skipWs ('"' :: (escapeStr k ++ '"' :: (':' :: (rv ++ ('}' :: rest))))) =
      '"' :: (escapeStr k ++ '"' :: (':' :: (rv ++ ('}' :: rest)))) := skipWs_cons _ (by decide)
  simp only [List.cons_append, List.append_assoc] at h1 ⊢
  simp only [h1]
  rw [parseJString_escape k _ hk]
  have h2 : skipWs (':' :: (rv ++ ('}' :: rest))) = ':' :: (rv ++ ('}' :: rest)) :=
    skipWs_cons _ (by decide)
  simp only [h2]
  have hval := Hv n ('}' :: rest)
  simp only [hval]
  have h3 : skipWs ('}' :: rest) = '}' :: rest := skipWs_cons _ (by decide)
  simp [h3]

lemma removeJson_cons_of_guard (c : Char) (rest : List Char)
    (hno : ∀ r1, c = 'j' → rest = 's' :: 'o' :: 'n' :: r1 → False) :
    removeJson (c :: rest) = c :: removeJson rest := by
  rw [removeJson.eq_def]
  split
  · rename_i r1 heq
    rw [List.cons.injEq] at heq
    exact (hno r1 heq.1 heq.2).elim
  · rename_i c' rest' hg heq
    rw [List.cons.injEq] at heq
    rw [← heq.1, ← heq.2]
  · rename_i heq
    exact (List.cons_ne_nil _ _ heq).elim

lemma containsJson_cons_of_guard (c : Char) (rest : List Char)
    (hno : ∀ r1, c = 'j' → rest = 's' :: 'o' :: 'n' :: r1 → False) :
    containsJson (c :: rest) = containsJson rest := by
  rw [containsJson.eq_def]
  split
  · rename_i r1 heq
    rw [List.cons.injEq] at heq
    exact (hno r1 heq.1 (by rw [heq.2])).elim
  · rename_i c' rest' hg heq
    rw [List.cons.injEq] at heq
    rw [← heq.2]
  · rename_i heq
    exact (List.cons_ne_nil _ _ heq).elim

lemma removeJson_of_not_contains (cs : List Char) (h : containsJson cs = false) :
    removeJson cs = cs := by
  induction cs using removeJson.induct with
  | case1 rest ih => simp [containsJson] at h
  | case2 c rest hno ih =>
    rw [containsJson_cons_of_guard c rest hno] at h
    rw [removeJson_cons_of_guard c rest hno, ih h]
  | case3 => rfl

lemma removeJson_length_le (cs : List Char) : (removeJson cs).length ≤ cs.length := by
  induction cs using removeJson.induct with
  | case1 rest ih =>
    rw [removeJson]
    simp only [List.length_cons]
    omega
  | case2 c rest hno ih =>
    rw [removeJson_cons_of_guard c rest hno]
    simp only [List.length_cons]
    omega
  | case3 => simp [removeJson]

lemma removeJson_length_lt (cs : List Char) (h : containsJson cs = true) :
    (removeJson cs).length + 4 ≤ cs.length := by
  induction cs using removeJson.induct with
  | case1 rest ih =>
    rw [removeJson]
    have := removeJson_length_le rest
    simp only [List.length_cons]
    omega
  | case2 c rest hno ih =>
    rw [containsJson_cons_of_guard c rest hno] at h
    rw [removeJson_cons_of_guard c rest hno]
    have := ih h
    simp only [List.length_cons]
    omega
  | case3 => simp [containsJson] at h

lemma containsJson_false_iff_removeJson_eq (cs : List Char) :
    containsJson cs = false ↔ removeJson cs = cs := by
  constructor
  · exact removeJson_of_not_contains cs
  · intro h
    by_contra hc
    rw [Bool.not_eq_false] at hc
    have := removeJson_length_lt cs hc
    rw [h] at this
    omega

lemma removeJson_getLast_brace (l : List Char) :
    l.getLast? = some '}' → ∃ m2, removeJson l = m2 ++ ['}'] := by
  induction l using removeJson.induct with
  | case1 rest ih =>
    intro h
    cases rest with
    | nil => simp [List.getLast?] at h
    | cons a rr =>
      have hl : ('j' :: 's' :: 'o' :: 'n' :: (a :: rr)).getLast? = (a :: rr).getLast? := by
        simp [List.getLast?_cons_cons]
      rw [hl] at h
      obtain ⟨m2, hm2⟩ := ih h
      exact ⟨m2, by rw [removeJson, hm2]⟩
  | case2 c rest hno ih =>
    intro h
    cases rest with
    | nil =>
      simp only [List.getLast?_singleton, Option.some.injEq] at h
      subst h
      exact ⟨[], by decide⟩
    | cons a rr =>
      have hl : (c :: (a :: rr)).getLast? = (a :: rr).getLast? := by
        simp [List.getLast?_cons_cons]
      rw [hl] at h
      obtain ⟨m2, hm2⟩ := ih h
      refine ⟨c :: m2, ?_⟩
      rw [removeJson_cons_of_guard c _ hno, hm2]
      rfl
  | case3 =>
    intro h
    simp [List.getLast?] at h

lemma findIdx?_char_iff (cs : List Char) (c : Char) (i : Nat) :
    cs.findIdx? (fun x => x = c) = some i ↔ FirstIdxOf cs c i := by
  rw [List.findIdx?_eq_some_iff_getElem]
  constructor
  · rintro ⟨hlt, hp, hmin⟩
    refine ⟨?_, ?_⟩
    · rw [List.getElem?_eq_getElem hlt]
      simpa using hp
    · intro k hk hck
      have hklt : k < cs.length := by omega
      apply hmin k hk
      rw [List.getElem?_eq_getElem hklt] at hck
      simpa using hck
  · rintro ⟨hi, hmin⟩
    have hlt : i < cs.length := by
      by_contra hge
      rw [List.getElem?_eq_none (by omega)] at hi
      exact Option.noConfusion hi
    refine ⟨hlt, ?_, ?_⟩
    · rw [List.getElem?_eq_getElem hlt] at hi
      simpa using hi
    · intro k hk
      have hklt : k < cs.length := by omega
      intro hp
      apply hmin k hk
      rw [List.getElem?_eq_getElem hklt]
      simpa using hp

lemma findIdx?_char_none_iff (cs : List Char) (c : Char) :
    cs.findIdx? (fun x => x = c) = none ↔ c ∉ cs := by
  rw [List.findIdx?_eq_none_iff]
  constructor
  · intro h hc
    have := h c hc
    simp at this
  · intro h x hx
    simp only [decide_eq_false_iff_not]
    intro hxc
    rw [hxc] at hx
    exact h hx

lemma rfindIdx_some_iff (cs : List Char) (c : Char) (j : Nat) :
    rfindIdx (fun x => x = c) cs = some j ↔ LastIdxOf cs c j := by
  rw [rfindIdx]
  cases hfi : cs.reverse.findIdx? (fun x => x = c) with
  | none =>
    simp only
    constructor
    · intro h; exact Option.noConfusion h
    · rintro ⟨hj, _⟩
      exfalso
      rw [findIdx?_char_none_iff] at hfi
      rw [List.getElem?_eq_some] at hj
      obtain ⟨hlt, hget⟩ := hj
      apply hfi
      apply List.mem_reverse.mpr
      rw [← hget]
      exact List.getElem_mem hlt
  | some i =>
    rw [findIdx?_char_iff] at hfi
    obtain ⟨hi, hmin⟩ := hfi
    have hilt : i < cs.length := by
      rw [List.getElem?_eq_some] at hi
      have h2 := hi.1
      rwa [List.length_reverse] at h2
    have hrev : cs.reverse[i]? = cs[cs.length - 1 - i]? := List.getElem?_reverse hilt
    simp only [Option.some.injEq]
    constructor
    · intro h
      subst h
      refine ⟨by rw [← hrev]; exact hi, ?_⟩
      intro k hk hck
      by_cases hklt : k < cs.length
      · have hrevk : cs.reverse[cs.length - 1 - k]? = cs[k]? := by
          have h3 := List.getElem?_reverse (l := cs) (i := cs.length - 1 - k) (by omega)
          rw [h3]
          congr 1
          omega
        apply hmin (cs.length - 1 - k) (by omega)
        rw [hrevk]
        exact hck
      · rw [List.getElem?_eq_none (by omega)] at hck
        exact Option.noConfusion hck
    · rintro ⟨hj, hmax⟩
      have hjlt : j < cs.length := by
        rw [List.getElem?_eq_some] at hj
        exact hj.1
      by_contra hne
      rcases Nat.lt_or_ge j (cs.length - 1 - i) with hlt | hge
      · exact hmax (cs.length - 1 - i) hlt (by rw [← hrev]; exact hi)
      · have hgt : cs.length - 1 - i < j := by omega
        apply hmin (cs.length - 1 - j) (by omega)
        have h4 : cs.reverse[cs.length - 1 - j]? = cs[j]? := by
          have h5 := List.getElem?_reverse (l := cs) (i := cs.length - 1 - j) (by omega)
          rw [h5]
          congr 1
          omega
        rw [h4]
        exact hj

lemma rfindIdx_none_iff (cs : List Char) (c : Char) :
    rfindIdx (fun x => x = c) cs = none ↔ c ∉ cs := by
  rw [rfindIdx]
  cases hfi : cs.reverse.findIdx? (fun x => x = c) with
  | none =>
    simp only
    rw [findIdx?_char_none_iff] at hfi
    constructor
    · intro _ hc
      exact hfi (List.mem_reverse.mpr hc)
    · intro _
      trivial
  | some i =>
    simp only
    rw [findIdx?_char_iff] at hfi
    obtain ⟨hi, _⟩ := hfi
    constructor
    · intro h; exact Option.noConfusion h
    · intro h
      exfalso
      rw [List.getElem?_eq_some] at hi
      obtain ⟨hlt, hget⟩ := hi
      apply h
      apply List.mem_reverse.mp
      rw [← hget]
      exact List.getElem_mem hlt

lemma pyStrip_id (t : List Char) (h0 : ∀ c, t.head? = some c → isWsChar c = false)
    (h1 : ∀ c, t.getLast? = some c → isWsChar c = false) : pyStrip t = t := by
  rw [pyStrip]
  cases t with
  | nil => rfl
  | cons a rest =>
    have ha : isWsChar a = false := h0 a rfl
    rw [List.dropWhile_cons, ha]
    simp only [Bool.false_eq_true, if_false]
    have hlast : (a :: rest).getLast? = some ((a :: rest).getLast (List.cons_ne_nil a rest)) :=
      List.getLast?_eq_getLast _ _
    have hb : isWsChar ((a :: rest).getLast (List.cons_ne_nil a rest)) = false :=
      h1 _ hlast
    cases hrev : (a :: rest).reverse with
    | nil =>
      exfalso
      have := congrArg List.length hrev
      simp at this
    | cons b rb =>
      have hhead : (a :: rest).reverse.head? = some b := by rw [hrev]; rfl
      rw [List.head?_reverse] at hhead
      have hbl : b = (a :: rest).getLast (List.cons_ne_nil a rest) := by
        rw [hlast] at hhead
        exact (Option.some.injEq _ _ ▸ hhead.symm)
      have hb2 : isWsChar b = false := by rw [hbl]; exact hb
      rw [List.dropWhile_cons, hb2]
      simp only [Bool.false_eq_true, if_false]
      rw [← hrev, List.reverse_reverse]

/-- Computation rule for a successful sanitize: if `i` is the first index of a
brace and `j` the last index of a closing brace, the sanitizer returns the
stripped, token-scrubbed inclusive slice. -/
lemma clean_ok_of_idx (text : List Char) (i j : Nat)
    (hf : FirstIdxOf text '{' i) (hl : LastIdxOf text '}' j) :
    clean_json_response text =
      .ok (pyStrip (removeJson ((text.take (j + 1)).drop i))) := by
  rw [clean_json_response]
  rw [(findIdx?_char_iff text '{' i).mpr hf, (rfindIdx_some_iff text '}' j).mpr hl]

lemma clean_error_iff (text : List Char) :
    clean_json_response text = .error noJsonMsg ↔ ('{' ∉ text ∨ '}' ∉ text) := by
  rw [clean_json_response]
  cases hfi : text.findIdx? (fun x => x = '{') with
  | none =>
    rw [findIdx?_char_none_iff] at hfi
    cases hr : rfindIdx (fun x => x = '}') text <;> simp [hfi]
  | some i =>
    cases hr : rfindIdx (fun x => x = '}') text with
    | none =>
      rw [rfindIdx_none_iff] at hr
      simp [hr]
    | some j =>
      simp only
      constructor
      · intro h; exact Except.noConfusion h
      · intro h
        exfalso
        rcases h with h | h
        · rw [← findIdx?_char_none_iff] at h
          rw [h] at hfi
          exact Option.noConfusion hfi
        · rw [← rfindIdx_none_iff] at h
          rw [h] at hr
          exact Option.noConfusion hr

lemma shape_of_head_last (l : List Char) (a b : Char) (h0 : l[0]? = some a)
    (h1 : l.getLast? = some b) (hne : a ≠ b) : ∃ mid, l = a :: (mid ++ [b]) := by
  cases l with
  | nil => exact Option.noConfusion h0
  | cons c rest =>
    have hca : c = a := by simpa using h0
    subst hca
    rcases List.eq_nil_or_concat rest with hrest | ⟨mid, d, hmid⟩
    · subst hrest
      simp only [List.getLast?_singleton, Option.some.injEq] at h1
      exact (hne h1).elim
    · rw [List.concat_eq_append] at hmid
      subst hmid
      have hd : d = b := by
        have : (c :: (mid ++ [d])).getLast? = some d := by
          rw [show c :: (mid ++ [d]) = (c :: mid) ++ [d] by simp, List.getLast?_concat]
        rw [this] at h1
        simpa using h1
      subst hd
      exact ⟨mid, rfl⟩

lemma slice_wrapped (text : List Char) (i j : Nat) (hij : i ≤ j)
    (hi : text[i]? = some '{') (hj : text[j]? = some '}') :
    ∃ mid, (text.take (j + 1)).drop i = '{' :: (mid ++ ['}']) := by
  have hjlt : j < text.length := by
    rw [List.getElem?_eq_some] at hj
    exact hj.1
  have hlen : ((text.take (j + 1)).drop i).length = j + 1 - i := by
    simp only [List.length_drop, List.length_take]
    omega
  have h0 : ((text.take (j + 1)).drop i)[0]? = some '{' := by
    rw [List.getElem?_drop, List.getElem?_take]
    rw [if_pos (by omega)]
    simpa using hi
  have hlast : ((text.take (j + 1)).drop i).getLast? = some '}' := by
    rw [List.getLast?_eq_getElem?, hlen]
    rw [List.getElem?_drop, List.getElem?_take]
    rw [if_pos (by omega)]
    have : i + (j + 1 - i - 1) = j := by omega
    rw [this]
    exact hj
  exact shape_of_head_last _ '{' '}' h0 hlast (by decide)

/-- A brace-wrapped, token-free text is a fixed point of the sanitizer. -/
lemma clean_id_of_wrapped (mid : List Char)
    (hnj : containsJson ('{' :: (mid ++ ['}'])) = false) :
    clean_json_response ('{' :: (mid ++ ['}'])) = .ok ('{' :: (mid ++ ['}'])) := by
  set t : List Char := '{' :: (mid ++ ['}']) with ht
  have hlen : t.length = mid.length + 2 := by simp [ht]
  have hfirst : FirstIdxOf t '{' 0 := by
    constructor
    · rw [ht]
      simp
    · intro k hk
      omega
  have hlastidx : LastIdxOf t '}' (t.length - 1) := by
    constructor
    · rw [← List.getLast?_eq_getElem?]
      rw [ht, show '{' :: (mid ++ ['}']) = ('{' :: mid) ++ ['}'] by simp, List.getLast?_concat]
    · intro k hk
      rw [List.getElem?_eq_none (by omega)]
      exact fun h => Option.noConfusion h
  rw [clean_ok_of_idx t 0 (t.length - 1) hfirst hlastidx]
  have hslice : (t.take (t.length - 1 + 1)).drop 0 = t := by
    have : t.length - 1 + 1 = t.length := by omega
    rw [this, List.drop_zero, List.take_length]
  rw [hslice, removeJson_of_not_contains t (by rw [ht] at hnj ⊢; exact hnj)]
  rw [pyStrip_id]
  · intro c hc
    rw [ht] at hc
    simp only [List.head?_cons, Option.some.injEq] at hc
    subst hc
    decide
  · intro c hc
    rw [ht, show '{' :: (mid ++ ['}']) = ('{' :: mid) ++ ['}'] by simp,
      List.getLast?_concat] at hc
    simp only [Option.some.injEq] at hc
    subst hc
    decide

lemma parseF_odReply (gd : List Char) (comps : List (List Char))
    (dims : List (List Char × List Char)) (mats kf iu : List (List Char))
    (hgd : PlainStr gd) (hcomps : ∀ s ∈ comps, PlainStr s)
    (hdims : ∀ p ∈ dims, PlainStr p.1 ∧ PlainStr p.2)
    (hdimsnod : (dims.map Prod.fst).Nodup)
    (hmats : ∀ s ∈ mats, PlainStr s) (hkf : ∀ s ∈ kf, PlainStr s)
    (hiu : ∀ s ∈ iu, PlainStr s) (n : Nat) :
    parseF ((comps.length + dims.length + mats.length + kf.length + iu.length + 19) + n) .val
        (renderODReply gd comps dims mats kf iu) =
      some (odJson gd comps dims mats kf iu, []) := by
  have Hgd : ∀ m r, parseF (1 + m) .val (renderStr gd ++ r) = some (.str gd, r) := by
    intro m r
    rw [Nat.add_comm]
    exact parseF_str gd r m hgd
  have Hcomps : ∀ m r, parseF ((comps.length + 2) + m) .val (renderStrArr comps ++ r) =
      some (.arr (comps.map .str), r) := fun m r => parseF_strArr comps m r hcomps
  have Hdims : ∀ m r, parseF ((dims.length + 2) + m) .val (renderStrObj dims ++ r) =
      some (.obj (dims.map (fun p => (p.1, Json.str p.2))), r) :=
    fun m r => parseF_strObj dims m r hdims hdimsnod
  have Hmats : ∀ m r, parseF ((mats.length + 2) + m) .val (renderStrArr mats ++ r) =
      some (.arr (mats.map .str), r) := fun m r => parseF_strArr mats m r hmats
  have Hkf : ∀ m r, parseF ((kf.length + 2) + m) .val (renderStrArr kf ++ r) =
      some (.arr (kf.map .str), r) := fun m r => parseF_strArr kf m r hkf
  have Hiu : ∀ m r, parseF ((iu.length + 2) + m) .val (renderStrArr iu ++ r) =
      some (.arr (iu.map .str), r) := fun m r => parseF_strArr iu m r hiu
  have hstep0 : parseF ((comps.length + dims.length + mats.length + kf.length + iu.length + 19) + n) .val
      (renderODReply gd comps dims mats kf iu) =
      parseF ((comps.length + dims.length + mats.length + kf.length + iu.length + 18) + n) (.members []) (renderStr gdKey ++ (':' :: (renderStr gd ++ (',' :: (renderStr componentsKey ++ (':' :: (renderStrArr comps ++ (',' :: (renderStr dimensionsKey ++ (':' :: (renderStrObj dims ++ (',' :: (renderStr materialsKey ++ (':' :: (renderStrArr mats ++ (',' :: (renderStr keyFeaturesKey ++ (':' :: (renderStrArr kf ++ (',' :: (renderStr intendedUseKey ++ (':' :: (renderStrArr iu ++ ['}']))))))))))))))))))))))) := by
    rw [show (comps.length + dims.length + mats.length + kf.length + iu.length + 19) + n = ((comps.length + dims.length + mats.length + kf.length + iu.length + 18) + n) + 1 by omega]
    rw [renderODReply, parseF.eq_def]
    have hsk : skipWs ('{' :: (renderStr gdKey ++ (':' :: (renderStr gd ++ (',' :: (renderStr componentsKey ++ (':' :: (renderStrArr comps ++ (',' :: (renderStr dimensionsKey ++ (':' :: (renderStrObj dims ++ (',' :: (renderStr materialsKey ++ (':' :: (renderStrArr mats ++ (',' :: (renderStr keyFeaturesKey ++ (':' :: (renderStrArr kf ++ (',' :: (renderStr intendedUseKey ++ (':' :: (renderStrArr iu ++ ['}'])))))))))))))))))))))))) = '{' :: (renderStr gdKey ++ (':' :: (renderStr gd ++ (',' :: (renderStr componentsKey ++ (':' :: (renderStrArr comps ++ (',' :: (renderStr dimensionsKey ++ (':' :: (renderStrObj dims ++ (',' :: (renderStr materialsKey ++ (':' :: (renderStrArr mats ++ (',' :: (renderStr keyFeaturesKey ++ (':' :: (renderStrArr kf ++ (',' :: (renderStr intendedUseKey ++ (':' :: (renderStrArr iu ++ ['}']))))))))))))))))))))))) := skipWs_cons _ (by decide)
    simp only [hsk]
    have hskb : skipWs (renderStr gdKey ++ (':' :: (renderStr gd ++ (',' :: (renderStr componentsKey ++ (':' :: (renderStrArr comps ++ (',' :: (renderStr dimensionsKey ++ (':' :: (renderStrObj dims ++ (',' :: (renderStr materialsKey ++ (':' :: (renderStrArr mats ++ (',' :: (renderStr keyFeaturesKey ++ (':' :: (renderStrArr kf ++ (',' :: (renderStr intendedUseKey ++ (':' :: (renderStrArr iu ++ ['}']))))))))))))))))))))))) = (renderStr gdKey ++ (':' :: (renderStr gd ++ (',' :: (renderStr componentsKey ++ (':' :: (renderStrArr comps ++ (',' :: (renderStr dimensionsKey ++ (':' :: (renderStrObj dims ++ (',' :: (renderStr materialsKey ++ (':' :: (renderStrArr mats ++ (',' :: (renderStr keyFeaturesKey ++ (':' :: (renderStrArr kf ++ (',' :: (renderStr intendedUseKey ++ (':' :: (renderStrArr iu ++ ['}']))))))))))))))))))))))) := by
      rw [renderStr_append]
      exact skipWs_cons _ (by decide)
    simp only [hskb]
    rw [renderStr_append]
    simp
  rw [hstep0]
  rw [show (comps.length + dims.length + mats.length + kf.length + iu.length + 18) + n = (1 + ((comps.length + dims.length + mats.length + kf.length + iu.length + 16) + n)) + 1 by omega]
  rw [parseF_member_cons gdKey (by decide) (renderStr gd)
    (.str gd) 1 Hgd ((comps.length + dims.length + mats.length + kf.length + iu.length + 16) + n)
    [] (renderStr componentsKey ++ (':' :: (renderStrArr comps ++ (',' :: (renderStr dimensionsKey ++ (':' :: (renderStrObj dims ++ (',' :: (renderStr materialsKey ++ (':' :: (renderStrArr mats ++ (',' :: (renderStr keyFeaturesKey ++ (':' :: (renderStrArr kf ++ (',' :: (renderStr intendedUseKey ++ (':' :: (renderStrArr iu ++ ['}'])))))))))))))))))))]
  have hacc0 : insertKV [] gdKey (Json.str gd) =
      [(gdKey, Json.str gd)] := rfl
  rw [hacc0]
  rw [show 1 + ((comps.length + dims.length + mats.length + kf.length + iu.length + 16) + n) = 1 + ((comps.length + dims.length + mats.length + kf.length + iu.length + 16) + n) by omega]
  rw [show 1 + ((comps.length + dims.length + mats.length + kf.length + iu.length + 16) + n) = ((comps.length + 2) + ((dims.length + mats.length + kf.length + iu.length + 14) + n)) + 1 by omega]
  rw [parseF_member_cons componentsKey (by decide) (renderStrArr comps)
    (.arr (comps.map .str)) (comps.length + 2) Hcomps ((dims.length + mats.length + kf.length + iu.length + 14) + n)
    [(gdKey, Json.str gd)] (renderStr dimensionsKey ++ (':' :: (renderStrObj dims ++ (',' :: (renderStr materialsKey ++ (':' :: (renderStrArr mats ++ (',' :: (renderStr keyFeaturesKey ++ (':' :: (renderStrArr kf ++ (',' :: (renderStr intendedUseKey ++ (':' :: (renderStrArr iu ++ ['}'])))))))))))))))]
  have hacc1 : insertKV [(gdKey, Json.str gd)] componentsKey (Json.arr (comps.map .str)) =
      [(gdKey, Json.str gd),
       (componentsKey, Json.arr (comps.map .str))] := rfl
  rw [hacc1]
  rw [show (comps.length + 2) + ((dims.length + mats.length + kf.length + iu.length + 14) + n) = (comps.length + 2) + ((dims.length + mats.length + kf.length + iu.length + 14) + n) by omega]
  rw [show (comps.length + 2) + ((dims.length + mats.length + kf.length + iu.length + 14) + n) = ((dims.length + 2) + ((comps.length + mats.length + kf.length + iu.length + 13) + n)) + 1 by omega]
  rw [parseF_member_cons dimensionsKey (by decide) (renderStrObj dims)
    (.obj (dims.map (fun p => (p.1, Json.str p.2)))) (dims.length + 2) Hdims ((comps.length + mats.length + kf.length + iu.length + 13) + n)
    [(gdKey, Json.str gd),
       (componentsKey, Json.arr (comps.map .str))] (renderStr materialsKey ++ (':' :: (renderStrArr mats ++ (',' :: (renderStr keyFeaturesKey ++ (':' :: (renderStrArr kf ++ (',' :: (renderStr intendedUseKey ++ (':' :: (renderStrArr iu ++ ['}'])))))))))))]
  have hacc2 : insertKV [(gdKey, Json.str gd),
       (componentsKey, Json.arr (comps.map .str))] dimensionsKey (Json.obj (dims.map (fun p => (p.1, Json.str p.2)))) =
      [(gdKey, Json.str gd),
       (componentsKey, Json.arr (comps.map .str)),
       (dimensionsKey, Json.obj (dims.map (fun p => (p.1, Json.str p.2))))] := rfl
  rw [hacc2]
  rw [show (dims.length + 2) + ((comps.length + mats.length + kf.length + iu.length + 13) + n) = (dims.length + 2) + ((comps.length + mats.length + kf.length + iu.length + 13) + n) by omega]
  rw [show (dims.length + 2) + ((comps.length + mats.length + kf.length + iu.length + 13) + n) = ((mats.length + 2) + ((comps.length + dims.length + kf.length + iu.length + 12) + n)) + 1 by omega]
  rw [parseF_member_cons materialsKey (by decide) (renderStrArr mats)
    (.arr (mats.map .str)) (mats.length + 2) Hmats ((comps.length + dims.length + kf.length + iu.length + 12) + n)
    [(gdKey, Json.str gd),
       (componentsKey, Json.arr (comps.map .str)),
       (dimensionsKey, Json.obj (dims.map (fun p => (p.1, Json.str p.2))))] (renderStr keyFeaturesKey ++ (':' :: (renderStrArr kf ++ (',' :: (renderStr intendedUseKey ++ (':' :: (renderStrArr iu ++ ['}'])))))))]
  have hacc3 : insertKV [(gdKey, Json.str gd),
       (componentsKey, Json.arr (comps.map .str)),
       (dimensionsKey, Json.obj (dims.map (fun p => (p.1, Json.str p.2))))] materialsKey (Json.arr (mats.map .str)) =
      [(gdKey, Json.str gd),
       (componentsKey, Json.arr (comps.map .str)),
       (dimensionsKey, Json.obj (dims.map (fun p => (p.1, Json.str p.2)))),
       (materialsKey, Json.arr (mats.map .str))] := rfl
  rw [hacc3]
  rw [show (mats.length + 2) + ((comps.length + dims.length + kf.length + iu.length + 12) + n) = (mats.length + 2) + ((comps.length + dims.length + kf.length + iu.length + 12) + n) by omega]
  rw [show (mats.length + 2) + ((comps.length + dims.length + kf.length + iu.length + 12) + n) = ((kf.length + 2) + ((comps.length + dims.length + mats.length + iu.length + 11) + n)) + 1 by omega]
  rw [parseF_member_cons keyFeaturesKey (by decide) (renderStrArr kf)
    (.arr (kf.map .str)) (kf.length + 2) Hkf ((comps.length + dims.length + mats.length + iu.length + 11) + n)
    [(gdKey, Json.str gd),
       (componentsKey, Json.arr (comps.map .str)),
       (dimensionsKey, Json.obj (dims.map (fun p => (p.1, Json.str p.2)))),
       (materialsKey, Json.arr (mats.map .str))] (renderStr intendedUseKey ++ (':' :: (renderStrArr iu ++ ['}'])))]
  have hacc4 : insertKV [(gdKey, Json.str gd),
       (componentsKey, Json.arr (comps.map .str)),
       (dimensionsKey, Json.obj (dims.map (fun p => (p.1, Json.str p.2)))),
       (materialsKey, Json.arr (mats.map .str))] keyFeaturesKey (Json.arr (kf.map .str)) =
      [(gdKey, Json.str gd),
       (componentsKey, Json.arr (comps.map .str)),
       (dimensionsKey, Json.obj (dims.map (fun p => (p.1, Json.str p.2)))),
       (materialsKey, Json.arr (mats.map .str)),
       (keyFeaturesKey, Json.arr (kf.map .str))] := rfl
  rw [hacc4]
  rw [show (kf.length + 2) + ((comps.length + dims.length + mats.length + iu.length + 11) + n) = (kf.length + 2) + ((comps.length + dims.length + mats.length + iu.length + 11) + n) by omega]
  rw [show (kf.length + 2) + ((comps.length + dims.length + mats.length + iu.length + 11) + n) = ((iu.length + 2) + ((comps.length + dims.length + mats.length + kf.length + 10) + n)) + 1 by omega]
  rw [parseF_member_last intendedUseKey (by decide) (renderStrArr iu)
    (.arr (iu.map .str)) (iu.length + 2) Hiu ((comps.length + dims.length + mats.length + kf.length + 10) + n)
    [(gdKey, Json.str gd),
       (componentsKey, Json.arr (comps.map .str)),
       (dimensionsKey, Json.obj (dims.map (fun p => (p.1, Json.str p.2)))),
       (materialsKey, Json.arr (mats.map .str)),
       (keyFeaturesKey, Json.arr (kf.map .str))] ([])]
  have hacc5 : insertKV [(gdKey, Json.str gd),
       (componentsKey, Json.arr (comps.map .str)),
       (dimensionsKey, Json.obj (dims.map (fun p => (p.1, Json.str p.2)))),
       (materialsKey, Json.arr (mats.map .str)),
       (keyFeaturesKey, Json.arr (kf.map .str))] intendedUseKey (Json.arr (iu.map .str)) =
      [(gdKey, Json.str gd),
       (componentsKey, Json.arr (comps.map .str)),
       (dimensionsKey, Json.obj (dims.map (fun p => (p.1, Json.str p.2)))),
       (materialsKey, Json.arr (mats.map .str)),
       (keyFeaturesKey, Json.arr (kf.map .str)),
       (intendedUseKey, Json.arr (iu.map .str))] := rfl
  rw [hacc5]
  rfl

lemma renderStr_length_ge (s : List Char) : 2 ≤ (renderStr s).length := by
  simp [renderStr]

lemma renderMoreItems_length_ge (xs : List (List Char)) :
    xs.length ≤ (renderMoreItems xs).length := by
  induction xs with
  | nil => simp [renderMoreItems]
  | cons s rest ih =>
    have := renderStr_length_ge s
    simp only [renderMoreItems, List.length_cons, List.length_append]
    omega

lemma renderStrArr_length_ge (ss : List (List Char)) :
    ss.length + 2 ≤ (renderStrArr ss).length := by
  cases ss with
  | nil => simp [renderStrArr]
  | cons x xs =>
    have h1 := renderStr_length_ge x
    have h2 := renderMoreItems_length_ge xs
    simp only [renderStrArr, List.length_cons, List.length_append]
    omega

lemma renderMoreMembers_length_ge (kvs : List (List Char × List Char)) :
    kvs.length ≤ (renderMoreMembers kvs).length := by
  induction kvs with
  | nil => simp [renderMoreMembers]
  | cons p rest ih =>
    obtain ⟨k, v⟩ := p
    have := renderStr_length_ge k
    simp only [renderMoreMembers, List.length_cons, List.length_append]
    omega

lemma renderStrObj_length_ge (kvs : List (List Char × List Char)) :
    kvs.length + 2 ≤ (renderStrObj kvs).length := by
  cases kvs with
  | nil => simp [renderStrObj]
  | cons p ps =>
    obtain ⟨k, v⟩ := p
    have h1 := renderStr_length_ge k
    have h2 := renderStr_length_ge v
    have h3 := renderMoreMembers_length_ge ps
    simp only [renderStrObj, List.length_cons, List.length_append]
    omega

lemma renderODReply_length_ge (gd : List Char) (comps : List (List Char))
    (dims : List (List Char × List Char)) (mats kf iu : List (List Char)) :
    comps.length + dims.length + mats.length + kf.length + iu.length + 19 ≤
      (renderODReply gd comps dims mats kf iu).length := by
  have h1 := renderStr_length_ge gdKey
  have h2 := renderStr_length_ge gd
  have h3 := renderStr_length_ge componentsKey
  have h4 := renderStrArr_length_ge comps
  have h5 := renderStr_length_ge dimensionsKey
  have h6 := renderStrObj_length_ge dims
  have h7 := renderStr_length_ge materialsKey
  have h8 := renderStrArr_length_ge mats
  have h9 := renderStr_length_ge keyFeaturesKey
  have h10 := renderStrArr_length_ge kf
  have h11 := renderStr_length_ge intendedUseKey
  have h12 := renderStrArr_length_ge iu
  simp only [renderODReply, List.length_cons, List.length_append]
  omega

lemma json_loads_odReply (gd : List Char) (comps : List (List Char))
    (dims : List (List Char × List Char)) (mats kf iu : List (List Char))
    (hgd : PlainStr gd) (hcomps : ∀ s ∈ comps, PlainStr s)
    (hdims : ∀ p ∈ dims, PlainStr p.1 ∧ PlainStr p.2)
    (hdimsnod : (dims.map Prod.fst).Nodup)
    (hmats : ∀ s ∈ mats, PlainStr s) (hkf : ∀ s ∈ kf, PlainStr s)
    (hiu : ∀ s ∈ iu, PlainStr s) :
    json_loads (renderODReply gd comps dims mats kf iu) =
      some (odJson gd comps dims mats kf iu) := by
  have hlen := renderODReply_length_ge gd comps dims mats kf iu
  rw [json_loads]
  rw [show 2 * (renderODReply gd comps dims mats kf iu).length + 2 =
    ((comps.length + dims.length + mats.length + kf.length + iu.length + 19) +
      (2 * (renderODReply gd comps dims mats kf iu).length + 2 -
        (comps.length + dims.length + mats.length + kf.length + iu.length + 19))) by omega]
  rw [parseF_odReply gd comps dims mats kf iu hgd hcomps hdims hdimsnod hmats hkf hiu]
  simp [skipWs]

lemma getLast?_append_of {Y : List Char} (X : List Char) {d : Char}
    (h : Y.getLast? = some d) : (X ++ Y).getLast? = some d := by
  rw [List.getLast?_append, h]
  rfl

lemma getLast?_cons_of {Y : List Char} (c : Char) {d : Char}
    (h : Y.getLast? = some d) : (c :: Y).getLast? = some d := by
  have he : c :: Y = [c] ++ Y := rfl
  rw [he]
  exact getLast?_append_of [c] h

lemma exists_concat_of_getLast (l : List Char) (d : Char) (h : l.getLast? = some d) :
    ∃ m, l = m ++ [d] := by
  rcases List.eq_nil_or_concat l with hl | ⟨m, b, hm⟩
  · subst hl
    simp [List.getLast?] at h
  · rw [List.concat_eq_append] at hm
    subst hm
    rw [List.getLast?_concat] at h
    simp only [Option.some.injEq] at h
    exact ⟨m, by rw [h]⟩

lemma clean_odReply (gd : List Char) (comps : List (List Char))
    (dims : List (List Char × List Char)) (mats kf iu : List (List Char))
    (hnj : containsJson (renderODReply gd comps dims mats kf iu) = false) :
    clean_json_response (renderODReply gd comps dims mats kf iu) =
      .ok (renderODReply gd comps dims mats kf iu) := by
  rw [renderODReply] at hnj ⊢
  have hlast : (renderStr gdKey ++ (':' :: (renderStr gd ++ (',' :: (renderStr componentsKey ++ (':' :: (renderStrArr comps ++ (',' :: (renderStr dimensionsKey ++ (':' :: (renderStrObj dims ++ (',' :: (renderStr materialsKey ++ (':' :: (renderStrArr mats ++ (',' :: (renderStr keyFeaturesKey ++ (':' :: (renderStrArr kf ++ (',' :: (renderStr intendedUseKey ++ (':' :: (renderStrArr iu ++ ['}']))))))))))))))))))))))).getLast? = some '}' := by
    repeat (first | exact rfl | apply getLast?_append_of | apply getLast?_cons_of)
  obtain ⟨mid, hmid⟩ := exists_concat_of_getLast _ _ hlast
  rw [hmid] at hnj ⊢
  exact clean_id_of_wrapped mid hnj

/-- C1 (amended): for every model reply that is exactly the instructed JSON
shape, serialized canonically, and containing no occurrence of the token
`json`, the sanitize-parse-project pipeline reproduces every field exactly. -/
theorem claim_C1_round_trip (gd : List Char) (comps : List (List Char))
    (dims : List (List Char × List Char)) (mats kf iu : List (List Char))
    (hgd : PlainStr gd) (hcomps : ∀ s ∈ comps, PlainStr s)
    (hdims : ∀ p ∈ dims, PlainStr p.1 ∧ PlainStr p.2)
    (hdimsnod : (dims.map Prod.fst).Nodup)
    (hmats : ∀ s ∈ mats, PlainStr s) (hkf : ∀ s ∈ kf, PlainStr s)
    (hiu : ∀ s ∈ iu, PlainStr s)
    (hnj : containsJson (renderODReply gd comps dims mats kf iu) = false) :
    generate_object_description (.ok (renderODReply gd comps dims mats kf iu)) =
      .ok (some ⟨.str gd, .arr (comps.map .str),
        .obj (dims.map (fun p => (p.1, Json.str p.2))),
        .arr (mats.map .str), .arr (kf.map .str), .arr (iu.map .str)⟩) := by
  simp only [generate_object_description, generate_object_description_of_reply,
    clean_odReply gd comps dims mats kf iu hnj,
    json_loads_odReply gd comps dims mats kf iu hgd hcomps hdims hdimsnod hmats hkf hiu]
  rfl

lemma removeJson_cons_brace (cs : List Char) :
    removeJson ('{' :: cs) = '{' :: removeJson cs :=
  removeJson_cons_of_guard '{' cs (fun _ hc _ => absurd hc (by decide))

/-- Structure of a successful sanitize: the output is empty or brace-wrapped. -/
lemma clean_ok_shape (text out : List Char)
    (h : clean_json_response text = .ok out) :
    out = [] ∨ ∃ mid, out = '{' :: (mid ++ ['}']) := by
  rcases hfi : text.findIdx? (fun c => c = '{') with _ | i
  · rw [clean_json_response, hfi] at h
    rcases rfindIdx (fun c => c = '}') text with _ | j <;> exact Except.noConfusion h
  · rcases hr : rfindIdx (fun c => c = '}') text with _ | j
    · rw [clean_json_response, hfi, hr] at h
      exact Except.noConfusion h
    · rw [clean_json_response, hfi, hr] at h
      simp only [Except.ok.injEq] at h
      have hfirst := (findIdx?_char_iff text '{' i).mp hfi
      have hlast := (rfindIdx_some_iff text '}' j).mp hr
      rcases Nat.lt_or_ge j i with hji | hij
      · left
        have hsl : (text.take (j + 1)).drop i = [] := by
          rw [List.drop_eq_nil_iff]
          have : (text.take (j + 1)).length ≤ j + 1 := by
            simp [List.length_take]
          omega
        rw [hsl] at h
        rw [← h]
        rfl
      · right
        obtain ⟨mid, hmid⟩ := slice_wrapped text i j hij hfirst.1 hlast.1
        rw [hmid] at h
        rw [removeJson_cons_brace] at h
        obtain ⟨m2, hm2⟩ := removeJson_getLast_brace (mid ++ ['}']) (List.getLast?_concat _)
        rw [hm2] at h
        rw [pyStrip_id] at h
        · exact ⟨m2, h.symm⟩
        · intro c hc
          simp only [List.head?_cons, Option.some.injEq] at hc
          subst hc
          decide
        · intro c hc
          rw [show '{' :: (m2 ++ ['}']) = ('{' :: m2) ++ ['}'] by simp,
            List.getLast?_concat] at hc
          simp only [Option.some.injEq] at hc
          subst hc
          decide

/-- C8 (amended): the sanitizer is idempotent on every successful output that
is nonempty and free of the token `json`. -/
theorem claim_C8_idempotent (text out : List Char)
    (h : clean_json_response text = .ok out) (hne : out ≠ [])
    (hnj : containsJson out = false) :
    clean_json_response out = .ok out := by
  rcases clean_ok_shape text out h with hempty | ⟨mid, hmid⟩
  · exact absurd hempty hne
  · rw [hmid] at hnj ⊢
    exact clean_id_of_wrapped mid hnj

/-- C8 counterexample: the sanitizer is not idempotent as claimed.  On the
input text consisting of a brace-wrapped `jjsonson`, it succeeds with output
brace-wrapped `json` (one token deleted), and re-running it on that output
gives brace-wrapped empty text instead of the same output. -/
theorem claim_C8_counterexample :
    clean_json_response (("\x7bjjsonson\x7d").data) = .ok (("\x7bjson\x7d").data) ∧
    clean_json_response (("\x7bjson\x7d").data) = .ok (("\x7b\x7d").data) ∧
    (("\x7bjson\x7d").data ≠ ("\x7b\x7d").data) := by
  refine ⟨rfl, rfl, ?_⟩
  decide

lemma wrapped_fixed (mid : List Char)
    (hnj : containsJson ('{' :: (mid ++ ['}'])) = false) :
    pyStrip (removeJson ('{' :: (mid ++ ['}']))) = '{' :: (mid ++ ['}']) := by
  rw [removeJson_of_not_contains _ hnj]
  apply pyStrip_id
  · intro c hc
    simp only [List.head?_cons, Option.some.injEq] at hc
    subst hc
    decide
  · intro c hc
    rw [show '{' :: (mid ++ ['}']) = ('{' :: mid) ++ ['}'] by simp,
      List.getLast?_concat] at hc
    simp only [Option.some.injEq] at hc
    subst hc
    decide

/-- C7 (amended): for a reply made of prose, then a single brace-wrapped JSON
object, then prose — where the leading prose contains no opening brace, the
trailing prose contains no closing brace, and the object text contains no
token `json` — the sanitizer returns exactly the object text. -/
theorem claim_C7_prose_stripped (pre mid post : List Char)
    (hpre : '{' ∉ pre) (hpost : '}' ∉ post)
    (hnj : containsJson ('{' :: (mid ++ ['}'])) = false) :
    clean_json_response (pre ++ ('{' :: (mid ++ ['}'])) ++ post) =
      .ok ('{' :: (mid ++ ['}'])) := by
  set obj : List Char := '{' :: (mid ++ ['}']) with hobj
  have hlenobj : obj.length = mid.length + 2 := by simp [hobj]
  have hfirst : FirstIdxOf (pre ++ obj ++ post) '{' pre.length := by
    constructor
    · rw [List.append_assoc, List.getElem?_append_right (Nat.le_refl _)]
      simp [hobj]
    · intro k hk hck
      rw [List.append_assoc, List.getElem?_append_left hk] at hck
      apply hpre
      rw [List.getElem?_eq_some] at hck
      obtain ⟨hlt, hget⟩ := hck
      rw [← hget]
      exact List.getElem_mem hlt
  have htext : pre ++ obj ++ post = (pre ++ ('{' :: mid)) ++ ('}' :: post) := by
    simp [hobj]
  have hlen2 : (pre ++ ('{' :: mid)).length = pre.length + mid.length + 1 := by
    simp
    omega
  have hlastidx : LastIdxOf (pre ++ obj ++ post) '}' (pre.length + mid.length + 1) := by
    constructor
    · rw [htext, List.getElem?_append_right (by omega)]
      rw [hlen2]
      simp
    · intro k hk hck
      by_cases hklt : k < (pre ++ obj ++ post).length
      · rw [htext, List.getElem?_append_right (by omega)] at hck
        apply hpost
        have hpos : k - (pre ++ ('{' :: mid)).length ≠ 0 := by
          rw [hlen2]
          omega
        rcases hidx : k - (pre ++ ('{' :: mid)).length with _ | m
        · exact absurd hidx hpos
        · rw [hidx] at hck
          simp only [List.getElem?_cons_succ] at hck
          rw [List.getElem?_eq_some] at hck
          obtain ⟨hlt, hget⟩ := hck
          rw [← hget]
          exact List.getElem_mem hlt
      · rw [List.getElem?_eq_none (by omega)] at hck
        exact Option.noConfusion hck
  rw [clean_ok_of_idx _ _ _ hfirst hlastidx]
  have hslice : ((pre ++ obj ++ post).take (pre.length + mid.length + 1 + 1)).drop pre.length =
      obj := by
    have hto : pre.length + mid.length + 1 + 1 = (pre ++ obj).length := by
      simp [hobj]
      omega
    rw [hto, List.take_left, List.drop_left]
  rw [hslice, hobj]
  rw [wrapped_fixed mid (by rw [← hobj]; exact hnj)]

/-- C7 counterexample: trailing prose that itself contains a closing brace is
not discarded — the sanitizer extracts from the first opening brace to the
LAST closing brace, which reaches into the prose. -/
theorem claim_C7_counterexample :
    clean_json_response (("Sure: \x7b\"a\": \"b\"\x7d ok :-\x7d").data) =
      .ok (("\x7b\"a\": \"b\"\x7d ok :-\x7d").data) ∧
    (("\x7b\"a\": \"b\"\x7d ok :-\x7d").data ≠ ("\x7b\"a\": \"b\"\x7d").data) := by
  refine ⟨rfl, ?_⟩
  decide

/-- C4: the sanitizer fails exactly when the text lacks an opening or closing
brace; otherwise it returns the stripped, token-scrubbed inclusive slice from
the first opening brace to the last closing brace.  In particular, a reply
with no brace yields a failed operation and no partial record from any of the
three analysis operations. -/
theorem claim_C4_sanitizer_algorithm :
    (∀ text : List Char,
      clean_json_response text = .error noJsonMsg ↔ ('{' ∉ text ∨ '}' ∉ text)) ∧
    (∀ (text : List Char) (i j : Nat), FirstIdxOf text '{' i → LastIdxOf text '}' j →
      clean_json_response text = .ok (pyStrip (removeJson ((text.take (j + 1)).drop i)))) ∧
    (∀ reply : List Char, '{' ∉ reply ∨ '}' ∉ reply →
      generate_object_description (.ok reply) = .ok none ∧
      generate_brainstorming (.ok reply) = .ok none ∧
      ∀ criteria, analyze_specifications criteria (.ok reply) = .ok []) := by
  refine ⟨clean_error_iff, clean_ok_of_idx, ?_⟩
  intro reply h
  have herr : clean_json_response reply = .error noJsonMsg := (clean_error_iff reply).mpr h
  refine ⟨?_, ?_, ?_⟩
  · simp only [generate_object_description, generate_object_description_of_reply, herr]
  · simp only [generate_brainstorming, generate_brainstorming_of_reply, herr]
  · intro criteria
    simp only [analyze_specifications, analyze_specifications_of_reply, herr]

theorem claim_C4_witness :
    (clean_json_response (("no braces at all").data) = .error noJsonMsg ↔
      ('{' ∉ (("no braces at all").data) ∨ '}' ∉ (("no braces at all").data))) ∧
    (clean_json_response (("a\x7bb\x7dc").data) =
      .ok (pyStrip (removeJson ((("a\x7bb\x7dc").data.take (3 + 1)).drop 1)))) ∧
    (generate_object_description (.ok (("no braces at all").data)) = .ok none) := by
  refine ⟨claim_C4_sanitizer_algorithm.1 _, ?_, ?_⟩
  · exact claim_C4_sanitizer_algorithm.2.1 (("a\x7bb\x7dc").data) 1 3 (by
      constructor
      · decide
      · intro k hk
        rcases k with _ | k
        · decide
        · omega) (by
      constructor
      · decide
      · intro k hk
        rcases k with _ | _ | _ | _ | _ | k
        · omega
        · omega
        · omega
        · omega
        · decide
        · intro hck
          have hlen5 : (("a\x7bb\x7dc").data).length = 5 := rfl
          rw [List.getElem?_eq_none (by omega)] at hck
          exact Option.noConfusion hck)
  · exact (claim_C4_sanitizer_algorithm.2.2 (("no braces at all").data) (by decide)).1

/-- C9: the token scrub applies uniformly to the raw extracted substring with
no awareness of JSON string literals: token deletion happens exactly when the
token occurs (first conjunct, plus the strict length drop), the sanitizer's
successful output is always the scrubbed slice (second conjunct), and on a
concrete reply whose payload string value mentions `json` the returned text
differs from the extracted JSON object substring (final conjuncts). -/
theorem claim_C9_token_removal :
    (∀ cs : List Char, containsJson cs = false ↔ removeJson cs = cs) ∧
    (∀ cs : List Char, containsJson cs = true → (removeJson cs).length + 4 ≤ cs.length) ∧
    (∀ (text : List Char) (i j : Nat), FirstIdxOf text '{' i → LastIdxOf text '}' j →
      clean_json_response text = .ok (pyStrip (removeJson ((text.take (j + 1)).drop i)))) ∧
    (clean_json_response (("\x7b\"a\": \"my json\"\x7d").data) =
      .ok (("\x7b\"a\": \"my \"\x7d").data) ∧
    (("\x7b\"a\": \"my \"\x7d").data ≠ ("\x7b\"a\": \"my json\"\x7d").data)) := by
  refine ⟨containsJson_false_iff_removeJson_eq, removeJson_length_lt, clean_ok_of_idx, rfl, ?_⟩
  decide

theorem claim_C9_witness :
    removeJson (("ab").data) = ("ab").data ∧
    (removeJson (("xjsony").data)).length + 4 ≤ (("xjsony").data).length :=
  ⟨(claim_C9_token_removal.1 (("ab").data)).mp (by decide),
   claim_C9_token_removal.2.1 (("xjsony").data) (by decide)⟩

/-- C2 (amended): every failure inside the `try` block — sanitizer failure,
parse failure, or projection failure — is caught: the operation reports it
and returns no record (`none`).  A failure of the endpoint request itself
(step 3) is NOT caught: the `create` call stands outside the `try`, so the
exception propagates out of the operation instead of returning `None`. -/
theorem claim_C2_failure_handling :
    (∀ e : List Char,
      generate_object_description (.error e) = .error e ∧
      generate_brainstorming (.error e) = .error e ∧
      ∀ criteria, analyze_specifications criteria (.error e) = .error e) ∧
    (∀ reply m, clean_json_response reply = .error m →
      generate_object_description (.ok reply) = .ok none ∧
      generate_brainstorming (.ok reply) = .ok none) ∧
    (∀ reply s, clean_json_response reply = .ok s → json_loads s = none →
      generate_object_description (.ok reply) = .ok none ∧
      generate_brainstorming (.ok reply) = .ok none) ∧
    (∀ reply s j, clean_json_response reply = .ok s → json_loads s = some j →
      (projectObjectDescription j = none →
        generate_object_description (.ok reply) = .ok none) ∧
      (projectDesignBrainstorming j = none →
        generate_brainstorming (.ok reply) = .ok none)) := by
  refine ⟨?_, ?_, ?_, ?_⟩
  · intro e
    exact ⟨rfl, rfl, fun criteria => rfl⟩
  · intro reply m h
    constructor
    · simp only [generate_object_description, generate_object_description_of_reply, h]
    · simp only [generate_brainstorming, generate_brainstorming_of_reply, h]
  · intro reply s h1 h2
    constructor
    · simp only [generate_object_description, generate_object_description_of_reply, h1, h2]
    · simp only [generate_brainstorming, generate_brainstorming_of_reply, h1, h2]
  · intro reply s j h1 h2
    constructor
    · intro h3
      simp only [generate_object_description, generate_object_description_of_reply, h1, h2, h3]
    · intro h3
      simp only [generate_brainstorming, generate_brainstorming_of_reply, h1, h2, h3]

/-- C2 counterexample: an endpoint-request failure (step 3) does not make the
operation return no record; the exception escapes the operation uncaught. -/
theorem claim_C2_counterexample :
    generate_object_description (.error (("rate limit").data)) =
      .error (("rate limit").data) ∧
    generate_object_description (.error (("rate limit").data)) ≠ .ok none ∧
    generate_brainstorming (.error (("rate limit").data)) =
      .error (("rate limit").data) ∧
    generate_brainstorming (.error (("rate limit").data)) ≠ .ok none := by
  refine ⟨rfl, ?_, rfl, ?_⟩
  · intro h
    exact Except.noConfusion h
  · intro h
    exact Except.noConfusion h

theorem claim_C2_witness :
    (clean_json_response (("total prose").data) = .error noJsonMsg ∧
      generate_object_description (.ok (("total prose").data)) = .ok none ∧
      generate_brainstorming (.ok (("total prose").data)) = .ok none) ∧
    (clean_json_response (("\x7b broken").data ++ [']'] ++ (("\x7d").data)) =
      .ok (("\x7b broken]\x7d").data) ∧
      json_loads (("\x7b broken]\x7d").data) = none ∧
      generate_object_description (.ok (("\x7b broken").data ++ [']'] ++ (("\x7d").data))) =
        .ok none) ∧
    (json_loads (("\x7b\x7d").data) = some (.obj []) ∧
      projectObjectDescription (.obj []) = none ∧
      generate_object_description (.ok (("\x7b\x7d").data)) = .ok none) := by
  refine ⟨⟨rfl, ?_, ?_⟩, ⟨rfl, rfl, ?_⟩, ⟨rfl, rfl, ?_⟩⟩
  · exact (claim_C2_failure_handling.2.1 (("total prose").data) noJsonMsg rfl).1
  · exact (claim_C2_failure_handling.2.1 (("total prose").data) noJsonMsg rfl).2
  · exact (claim_C2_failure_handling.2.2.1 ((("\x7b broken").data ++ [']'] ++ (("\x7d").data)))
      (("\x7b broken]\x7d").data) rfl rfl).1
  · exact (claim_C2_failure_handling.2.2.2 (("\x7b\x7d").data) (("\x7b\x7d").data)
      (.obj []) rfl rfl).1 rfl

/-- C6: record construction is all-or-nothing.  A projection succeeds exactly
when every required key is present, the constructed record's fields are
exactly the looked-up values (no defaults, no coercion), and a single missing
key makes the whole projection fail. -/
theorem claim_C6_all_or_nothing :
    (∀ (j : Json) (r : ObjectDescription),
      projectObjectDescription j = some r ↔
        (getKey j gdKey = some r.general_description ∧
         getKey j componentsKey = some r.components ∧
         getKey j dimensionsKey = some r.dimensions ∧
         getKey j materialsKey = some r.materials ∧
         getKey j keyFeaturesKey = some r.key_features ∧
         getKey j intendedUseKey = some r.intended_use)) ∧
    (∀ j : Json, projectObjectDescription j = none ↔
      (getKey j gdKey = none ∨ getKey j componentsKey = none ∨
       getKey j dimensionsKey = none ∨ getKey j materialsKey = none ∨
       getKey j keyFeaturesKey = none ∨ getKey j intendedUseKey = none)) ∧
    (∀ (j : Json) (r : DesignBrainstorming),
      projectDesignBrainstorming j = some r ↔
        (getKey j caKey = some r.components_alternatives ∧
         getKey j moKey = some r.material_options ∧
         getKey j ecKey = some r.ergonomic_considerations ∧
         getKey j maKey = some r.market_analysis ∧
         getKey j haKey = some r.hazard_analysis ∧
         getKey j ioKey = some r.innovation_opportunities ∧
         getKey j dtKey = some r.design_tradeoffs)) ∧
    (∀ j : Json, projectDesignBrainstorming j = none ↔
      (getKey j caKey = none ∨ getKey j moKey = none ∨ getKey j ecKey = none ∨
       getKey j maKey = none ∨ getKey j haKey = none ∨ getKey j ioKey = none ∨
       getKey j dtKey = none)) := by
  refine ⟨?_, ?_, ?_, ?_⟩
  · intro j r
    obtain ⟨r1, r2, r3, r4, r5, r6⟩ := r
    rcases h1 : getKey j gdKey with _ | v1 <;>
      rcases h2 : getKey j componentsKey with _ | v2 <;>
      rcases h3 : getKey j dimensionsKey with _ | v3 <;>
      rcases h4 : getKey j materialsKey with _ | v4 <;>
      rcases h5 : getKey j keyFeaturesKey with _ | v5 <;>
      rcases h6 : getKey j intendedUseKey with _ | v6 <;>
      simp [projectObjectDescription, h1, h2, h3, h4, h5, h6]
  · intro j
    rcases h1 : getKey j gdKey with _ | v1 <;>
      rcases h2 : getKey j componentsKey with _ | v2 <;>
      rcases h3 : getKey j dimensionsKey with _ | v3 <;>
      rcases h4 : getKey j materialsKey with _ | v4 <;>
      rcases h5 : getKey j keyFeaturesKey with _ | v5 <;>
      rcases h6 : getKey j intendedUseKey with _ | v6 <;>
      simp [projectObjectDescription, h1, h2, h3, h4, h5, h6]
  · intro j r
    obtain ⟨r1, r2, r3, r4, r5, r6, r7⟩ := r
    rcases h1 : getKey j caKey with _ | v1 <;>
      rcases h2 : getKey j moKey with _ | v2 <;>
      rcases h3 : getKey j ecKey with _ | v3 <;>
      rcases h4 : getKey j maKey with _ | v4 <;>
      rcases h5 : getKey j haKey with _ | v5 <;>
      rcases h6 : getKey j ioKey with _ | v6 <;>
      rcases h7 : getKey j dtKey with _ | v7 <;>
      simp [projectDesignBrainstorming, h1, h2, h3, h4, h5, h6, h7]
  · intro j
    rcases h1 : getKey j caKey with _ | v1 <;>
      rcases h2 : getKey j moKey with _ | v2 <;>
      rcases h3 : getKey j ecKey with _ | v3 <;>
      rcases h4 : getKey j maKey with _ | v4 <;>
      rcases h5 : getKey j haKey with _ | v5 <;>
      rcases h6 : getKey j ioKey with _ | v6 <;>
      rcases h7 : getKey j dtKey with _ | v7 <;>
      simp [projectDesignBrainstorming, h1, h2, h3, h4, h5, h6, h7]

theorem claim_C6_witness :
    projectObjectDescription (.obj []) = none ∧
    projectDesignBrainstorming (.obj []) = none :=
  ⟨(claim_C6_all_or_nothing.2.1 (.obj [])).mpr (Or.inl rfl),
   (claim_C6_all_or_nothing.2.2.2 (.obj [])).mpr (Or.inl rfl)⟩

lemma specLoop_eq_append (kvs : List (List Char × Json)) :
    ∀ acc, specLoop kvs acc = acc ++ truncatedProjections kvs := by
  induction kvs with
  | nil => intro acc; simp [specLoop, truncatedProjections]
  | cons p rest ih =>
    intro acc
    obtain ⟨k, v⟩ := p
    rw [specLoop, truncatedProjections]
    rcases h : projectSpec k v with _ | sp
    · simp
    · simp only [ih (acc ++ [(k, sp)])]
      simp

lemma truncatedProjections_all_ok (pre : List (List Char × Json))
    (hpre : ∀ p ∈ pre, (projectSpec p.1 p.2).isSome) (rest : List (List Char × Json)) :
    truncatedProjections (pre ++ rest) =
      truncatedProjections pre ++ truncatedProjections rest := by
  induction pre with
  | nil => simp [truncatedProjections]
  | cons p ps ih =>
    obtain ⟨k, v⟩ := p
    have hk : (projectSpec k v).isSome := hpre (k, v) (List.mem_cons_self _ _)
    rcases h : projectSpec k v with _ | sp
    · rw [h] at hk
      simp [Option.isSome] at hk
    · rw [List.cons_append, truncatedProjections, truncatedProjections, h]
      simp only [List.cons_append, List.cons.injEq, true_and]
      exact ih (fun q hq => hpre q (List.mem_cons_of_mem _ hq))

lemma truncatedProjections_fail_head (k : List Char) (v : Json)
    (rest : List (List Char × Json)) (h : projectSpec k v = none) :
    truncatedProjections ((k, v) :: rest) = [] := by
  rw [truncatedProjections, h]

lemma projectSpec_category (k : List Char) (v : Json) (sp : DfXSpecification)
    (h : projectSpec k v = some sp) : sp.category = k := by
  rw [projectSpec] at h
  rcases h1 : getKey v specificationsKey with _ | a <;> rw [h1] at h
  · exact Option.noConfusion h
  rcases h2 : getKey v requirementsKey with _ | b <;> rw [h2] at h
  · exact Option.noConfusion h
  rcases h3 : getKey v constraintsKey with _ | c <;> rw [h3] at h
  · exact Option.noConfusion h
  rcases h4 : getKey v recommendationsKey with _ | d <;> rw [h4] at h
  · exact Option.noConfusion h
  simp only [Option.some.injEq] at h
  rw [← h]

/-- C3 (amended): inside `analyze_specifications`, a projection failure for
one category aborts the loop: the returned mapping consists of exactly the
successful projections of the categories strictly BEFORE the first failing
category, in reply order; that category and every later one are omitted, and
the call itself still returns a mapping rather than failing. -/
theorem claim_C3_scoped_truncation (criteria : List (List Char)) (reply s : List Char)
    (kvs : List (List Char × Json))
    (h1 : clean_json_response reply = .ok s) (h2 : json_loads s = some (.obj kvs)) :
    analyze_specifications criteria (.ok reply) = .ok (truncatedProjections kvs) ∧
    (∀ pre k v post, kvs = pre ++ (k, v) :: post →
      (∀ p ∈ pre, (projectSpec p.1 p.2).isSome) → projectSpec k v = none →
      truncatedProjections kvs = truncatedProjections pre) := by
  constructor
  · simp only [analyze_specifications, analyze_specifications_of_reply, h1, h2]
    rw [specLoop_eq_append kvs []]
    rfl
  · intro pre k v post hkvs hpre hfail
    rw [hkvs, truncatedProjections_all_ok pre hpre ((k, v) :: post),
      truncatedProjections_fail_head k v post hfail, List.append_nil]

/-- C3 counterexample: with a parsed reply holding categories a (valid),
b (invalid sub-object), c (valid), the result keeps only a; category c is
dropped even though its sub-object projects successfully. -/
theorem claim_C3_counterexample :
    analyze_specifications [safetyKey]
      (.ok (("\x7b\"a\":\x7b\"specifications\":[],\"requirements\":[],\"constraints\":[],\"recommendations\":[]\x7d,\"b\":0,\"c\":\x7b\"specifications\":[],\"requirements\":[],\"constraints\":[],\"recommendations\":[]\x7d\x7d").data)) =
      .ok [((("a").data), ⟨("a").data, .arr [], .arr [], .arr [], .arr []⟩)] ∧
    projectSpec (("c").data)
      (.obj [(specificationsKey, .arr []), (requirementsKey, .arr []),
             (constraintsKey, .arr []), (recommendationsKey, .arr [])]) =
      some ⟨("c").data, .arr [], .arr [], .arr [], .arr []⟩ :=
  ⟨rfl, rfl⟩

theorem claim_C3_witness :
    clean_json_response (("\x7b\"a\":\x7b\"specifications\":[],\"requirements\":[],\"constraints\":[],\"recommendations\":[]\x7d,\"b\":0\x7d").data) =
      .ok (("\x7b\"a\":\x7b\"specifications\":[],\"requirements\":[],\"constraints\":[],\"recommendations\":[]\x7d,\"b\":0\x7d").data) ∧
    json_loads (("\x7b\"a\":\x7b\"specifications\":[],\"requirements\":[],\"constraints\":[],\"recommendations\":[]\x7d,\"b\":0\x7d").data) =
      some (.obj [((("a").data),
        .obj [(specificationsKey, .arr []), (requirementsKey, .arr []),
              (constraintsKey, .arr []), (recommendationsKey, .arr [])]),
        ((("b").data), .num 0)]) ∧
    analyze_specifications [safetyKey]
      (.ok (("\x7b\"a\":\x7b\"specifications\":[],\"requirements\":[],\"constraints\":[],\"recommendations\":[]\x7d,\"b\":0\x7d").data)) =
      .ok (truncatedProjections [((("a").data),
        .obj [(specificationsKey, .arr []), (requirementsKey, .arr []),
              (constraintsKey, .arr []), (recommendationsKey, .arr [])]),
        ((("b").data), .num 0)]) := by
  refine ⟨rfl, rfl, ?_⟩
  exact (claim_C3_scoped_truncation [safetyKey]
    (("\x7b\"a\":\x7b\"specifications\":[],\"requirements\":[],\"constraints\":[],\"recommendations\":[]\x7d,\"b\":0\x7d").data)
    (("\x7b\"a\":\x7b\"specifications\":[],\"requirements\":[],\"constraints\":[],\"recommendations\":[]\x7d,\"b\":0\x7d").data)
    [((("a").data),
        .obj [(specificationsKey, .arr []), (requirementsKey, .arr []),
              (constraintsKey, .arr []), (recommendationsKey, .arr [])]),
        ((("b").data), .num 0)] rfl rfl).1

/-- C5: when the parsed reply supplies only the `safety` key (with a valid
sub-object) for a call requested with categories safety and cost, the
returned mapping has exactly the single entry `safety` and omits `cost`,
without failing the call. -/
theorem claim_C5_safety_only (reply s : List Char) (data : Json) (sp : DfXSpecification)
    (h1 : clean_json_response reply = .ok s)
    (h2 : json_loads s = some (.obj [(safetyKey, data)]))
    (h3 : projectSpec safetyKey data = some sp) :
    analyze_specifications [safetyKey, costKey] (.ok reply) = .ok [(safetyKey, sp)] := by
  simp only [analyze_specifications, analyze_specifications_of_reply, h1, h2]
  rw [specLoop_eq_append]
  rw [truncatedProjections, h3, truncatedProjections]
  rfl

theorem claim_C5_witness :
    analyze_specifications [safetyKey, costKey]
      (.ok (("\x7b\"safety\":\x7b\"specifications\":[],\"requirements\":[],\"constraints\":[],\"recommendations\":[]\x7d\x7d").data)) =
      .ok [(safetyKey, ⟨safetyKey, .arr [], .arr [], .arr [], .arr []⟩)] :=
  claim_C5_safety_only _ _
    (.obj [(specificationsKey, .arr []), (requirementsKey, .arr []),
           (constraintsKey, .arr []), (recommendationsKey, .arr [])])
    ⟨safetyKey, .arr [], .arr [], .arr [], .arr []⟩ rfl rfl rfl

/-- C10 (amended): `analyze_specifications` never validates or filters the
reply against the requested criteria: the result is entirely independent of
the `criteria` argument, and every top-level key up to the first projection
failure is included with its `category` field set to the key itself — no
matter whether the key is among the requested criteria or among the ten
fixed categories. -/
theorem claim_C10_no_criteria_filtering :
    (∀ criteria criteria' endpoint,
      analyze_specifications criteria endpoint =
        analyze_specifications criteria' endpoint) ∧
    (∀ (criteria : List (List Char)) (reply s : List Char) pre (k : List Char)
        (v : Json) post (sp : DfXSpecification),
      clean_json_response reply = .ok s →
      json_loads s = some (.obj (pre ++ (k, v) :: post)) →
      (∀ p ∈ pre, (projectSpec p.1 p.2).isSome) → projectSpec k v = some sp →
      ∃ res, analyze_specifications criteria (.ok reply) = .ok res ∧
        (k, sp) ∈ res ∧ sp.category = k) := by
  constructor
  · intro criteria criteria' endpoint
    cases endpoint <;> rfl
  · intro criteria reply s pre k v post sp h1 h2 hpre hk
    refine ⟨truncatedProjections (pre ++ (k, v) :: post), ?_, ?_, ?_⟩
    · exact (claim_C3_scoped_truncation criteria reply s _ h1 h2).1
    · rw [truncatedProjections_all_ok pre hpre ((k, v) :: post)]
      apply List.mem_append_right
      rw [truncatedProjections, hk]
      exact List.mem_cons_self _ _
    · exact projectSpec_category k v sp hk

/-- C10 counterexample: a top-level key whose sub-object projects
successfully is NOT always included — a projection failure on an earlier key
aborts the loop and drops it. -/
theorem claim_C10_counterexample :
    analyze_specifications [safetyKey]
      (.ok (("\x7b\"bad\":0,\"zz_custom\":\x7b\"specifications\":[],\"requirements\":[],\"constraints\":[],\"recommendations\":[]\x7d\x7d").data)) =
      .ok [] ∧
    projectSpec (("zz_custom").data)
      (.obj [(specificationsKey, .arr []), (requirementsKey, .arr []),
             (constraintsKey, .arr []), (recommendationsKey, .arr [])]) =
      some ⟨("zz_custom").data, .arr [], .arr [], .arr [], .arr []⟩ :=
  ⟨rfl, rfl⟩

theorem claim_C10_witness :
    (analyze_specifications [safetyKey]
        (.ok (("\x7b\"zz_custom\":\x7b\"specifications\":[],\"requirements\":[],\"constraints\":[],\"recommendations\":[]\x7d\x7d").data) : Except (List Char) (List Char)) =
      analyze_specifications [costKey]
        (.ok (("\x7b\"zz_custom\":\x7b\"specifications\":[],\"requirements\":[],\"constraints\":[],\"recommendations\":[]\x7d\x7d").data))) ∧
    (∃ res, analyze_specifications [safetyKey]
        (.ok (("\x7b\"zz_custom\":\x7b\"specifications\":[],\"requirements\":[],\"constraints\":[],\"recommendations\":[]\x7d\x7d").data)) = .ok res ∧
      ((("zz_custom").data), (⟨("zz_custom").data, .arr [], .arr [], .arr [], .arr []⟩ :
        DfXSpecification)) ∈ res ∧
      (⟨("zz_custom").data, .arr [], .arr [], .arr [], .arr []⟩ :
        DfXSpecification).category = ("zz_custom").data) ∧
    (("zz_custom").data) ∉ (categories.map Prod.fst) ∧
    (("zz_custom").data) ∉ [safetyKey] := by
  refine ⟨?_, ?_, ?_, ?_⟩
  · exact claim_C10_no_criteria_filtering.1 [safetyKey] [costKey] _
  · exact claim_C10_no_criteria_filtering.2 [safetyKey]
      (("\x7b\"zz_custom\":\x7b\"specifications\":[],\"requirements\":[],\"constraints\":[],\"recommendations\":[]\x7d\x7d").data)
      (("\x7b\"zz_custom\":\x7b\"specifications\":[],\"requirements\":[],\"constraints\":[],\"recommendations\":[]\x7d\x7d").data)
      [] (("zz_custom").data)
      (.obj [(specificationsKey, .arr []), (requirementsKey, .arr []),
             (constraintsKey, .arr []), (recommendationsKey, .arr [])])
      [] ⟨("zz_custom").data, .arr [], .arr [], .arr [], .arr []⟩
      rfl rfl (by intro p hp; simp at hp) rfl
  · decide
  · decide

/-- C1 counterexample: a reply that is exactly the instructed JSON shape but
whose description value contains the token `json` is corrupted by the
sanitizer: the pipeline succeeds but the reproduced field differs from the
reply's field. -/
theorem claim_C1_counterexample :
    generate_object_description_of_reply
      (("\x7b\"general_description\":\"a json file\",\"components\":[],\"dimensions\":\x7b\x7d,\"materials\":[],\"key_features\":[],\"intended_use\":[]\x7d").data) =
      some ⟨.str (("a  file").data), .arr [], .obj [], .arr [], .arr [], .arr []⟩ ∧
    Json.str (("a  file").data) ≠ Json.str (("a json file").data) := by
  refine ⟨rfl, ?_⟩
  intro h
  injection h with h2
  exact absurd h2 (by decide)

theorem claim_C1_witness :
    generate_object_description
      (.ok (renderODReply (("a cup").data)
        [("handle").data, ("body").data]
        [((("height").data), ("10cm").data)]
        [("ceramic").data]
        [("insulated").data]
        [("beverage holding").data])) =
      .ok (some ⟨.str (("a cup").data),
        .arr [.str (("handle").data), .str (("body").data)],
        .obj [((("height").data), .str (("10cm").data))],
        .arr [.str (("ceramic").data)],
        .arr [.str (("insulated").data)],
        .arr [.str (("beverage holding").data)]⟩) := by
  exact claim_C1_round_trip (("a cup").data)
    [("handle").data, ("body").data]
    [((("height").data), ("10cm").data)]
    [("ceramic").data]
    [("insulated").data]
    [("beverage holding").data]
    (by decide) (by decide) (by decide) (by decide) (by decide) (by decide) (by decide)
    (by decide)

theorem claim_C7_witness :
    clean_json_response ((("Note: ").data) ++
        ('{' :: ((("\"a\": \"b\"").data) ++ ['}'])) ++ ((" done").data)) =
      .ok ('{' :: ((("\"a\": \"b\"").data) ++ ['}'])) :=
  claim_C7_prose_stripped (("Note: ").data) (("\"a\": \"b\"").data) ((" done").data)
    (by decide) (by decide) (by decide)

theorem claim_C8_witness :
    clean_json_response (("\x7ba\x7d").data) = .ok (("\x7ba\x7d").data) :=
  claim_C8_idempotent (("x\x7ba\x7dy").data) (("\x7ba\x7d").data) rfl
    (by decide) (by decide)
